import Mathlib

/-!
Verification development for the wa-bulk-sender repository.

The definitions below are shallow embeddings of the JavaScript source:
  * `normalizePhone`            — src/utils/phoneUtils.js
  * `deduplicateContacts`       — src/utils/templateUtils.js (contact utilities)
  * `renderMessage`             — src/utils/templateUtils.js
  * `getRandomDelay`, `getCooldownDelay` — src/utils/whatsappUtils.js
  * `handleStart` and friends   — src/components/BulkSender.jsx (dispatch loop)

JavaScript strings are modelled as Lean `String` / `List Char`; JS objects used
as string-keyed records are modelled as association lists; `undefined`/missing
and the empty string are both falsy in JS, which the embedding mirrors where
the source relies on truthiness.  `Math.random()` draws and the arrival of
external stop/pause signals are modelled as explicit oracle parameters.
-/

set_option maxRecDepth 40000

namespace WaBulk

/-! ## Phone utilities (src/utils/phoneUtils.js) -/

/-- `COUNTRY_CODES` from phoneUtils.js. -/
def COUNTRY_CODES : List String :=
  ["+254", "+256", "+255", "+233", "+234", "+27", "+1", "+44"]

/-- The character filter used by `normalizePhone`: the JS regex
`[^\d+]` removes everything that is neither a digit nor a `+`
(note: it keeps every `+`, not only a leading one). -/
def keepDigitOrPlus (c : Char) : Bool := c.isDigit || c == '+'

/-- The cleaning step of `normalizePhone`: `phone.replace(/[^\d+]/g, '')`. -/
def cleanPhone (phone : String) : List Char := phone.data.filter keepDigitOrPlus

/-- The final length gate of `normalizePhone`: count the digits (everything
except `+`), reject outside `[7,15]`, otherwise return the string. -/
def phoneGate (full : List Char) : Option String :=
  if (full.filter (fun c => c ≠ '+')).length < 7 ∨ 15 < (full.filter (fun c => c ≠ '+')).length
  then none
  else some (String.mk full)

/-- The local-format step of `normalizePhone`: strip one leading `0`, then
prepend the default country code. -/
def localStep (dcc : String) (cleaned : List Char) : List Char :=
  dcc.data ++ (if cleaned.head? = some '0' then cleaned.tail else cleaned)

/-- `normalizePhone(phone, defaultCountryCode)` from phoneUtils.js.
Empty input is falsy in JS, hence rejected up front. -/
def normalizePhone (phone : String) (defaultCountryCode : String) : Option String :=
  if phone = "" then none
  else if (cleanPhone phone).head? = some '+' then
    if COUNTRY_CODES.any (fun code => code.data.isPrefixOf (cleanPhone phone)) then
      phoneGate (cleanPhone phone)
    else none
  else phoneGate (localStep defaultCountryCode (cleanPhone phone))

/-- Following the words of claim C9: strip everything except digits and a
*leading* `+`. -/
def cleanClaim (phone : String) : List Char :=
  (if phone.data.head? = some '+' then ['+'] else []) ++ phone.data.filter Char.isDigit

/-- Following the words of claim C9: strip everything except digits and a
*leading* `+`; when the input does not start with `+`, strip one leading `0`
and prepend the default country code; accept only when the digit count
excluding `+` lies in `[7,15]`.  (For inputs that do start with `+` the
surrounding spec requires a supported country-code prefix, included here so
that the function is total.) -/
def normalizeClaim (phone : String) (defaultCountryCode : String) : Option String :=
  if phone = "" then none
  else if phone.data.head? = some '+' then
    if COUNTRY_CODES.any (fun code => code.data.isPrefixOf (cleanClaim phone)) then
      phoneGate (cleanClaim phone)
    else none
  else phoneGate (localStep defaultCountryCode (cleanClaim phone))

/-! ## Contact records and deduplication (contact utilities) -/

/-- A JS contact object: a string-keyed record, modelled as an association
list of field name/value pairs. -/
abbrev Contact := List (String × String)

/-- Reading `contact.phone`: JS yields `undefined` for a missing key, which is
falsy exactly like the empty string, so both are modelled as `""`. -/
def phoneOf (c : Contact) : String :=
  match c.find? (fun p => p.1 == "phone") with
  | some p => p.2
  | none => ""

/-- The loop body of `deduplicateContacts`: `seen` is the set of phone values
already pushed (a JS `Set`, modelled as a list).  A contact is kept only when
`contact.phone` is truthy and not yet seen. -/
def dedupGo (seen : List String) : List Contact → List Contact
  | [] => []
  | c :: t =>
    if phoneOf c ≠ "" ∧ phoneOf c ∉ seen then c :: dedupGo (phoneOf c :: seen) t
    else dedupGo seen t

/-- `deduplicateContacts(contacts)` from the contact utilities. -/
def deduplicateContacts (contacts : List Contact) : List Contact :=
  dedupGo [] contacts

/-- Following the words of claim C7: drop exactly those records whose phone has
already appeared earlier in the sequence (first occurrence wins). -/
def dedupClaimGo (seen : List String) : List Contact → List Contact
  | [] => []
  | c :: t =>
    if phoneOf c ∈ seen then dedupClaimGo seen t
    else c :: dedupClaimGo (phoneOf c :: seen) t

/-! ## Template rendering (src/utils/templateUtils.js) -/

/-- The character class `[\w\s]` of the placeholder regex
`{{?([\w\s]+)}}?`: ASCII word characters, underscore, or whitespace. -/
def tokChar (c : Char) : Bool := c.isAlphanum || c == '_' || c.isWhitespace

/-- Attempt to complete a placeholder match after `openLen` opening braces
have been consumed. `t` is the text following the braces.  Returns
`(matched text, captured key, remaining text)`.  The captured group
`([\w\s]+)` is greedy and `}}?` consumes a second closing brace when present.
(When two opening braces were consumed and this fails, backtracking to a
single opening brace always fails too, since the second `{` is not in
`[\w\s]`.) -/
def braceMatchCore (openLen : Nat) (t : List Char) :
    Option (List Char × List Char × List Char) :=
  if (t.takeWhile tokChar).isEmpty then none
  else if (t.dropWhile tokChar).head? = some '}' then
    if (t.dropWhile tokChar).tail.head? = some '}' then
      some (List.replicate openLen '{' ++ t.takeWhile tokChar ++ ['}', '}'],
        t.takeWhile tokChar, (t.dropWhile tokChar).tail.tail)
    else
      some (List.replicate openLen '{' ++ t.takeWhile tokChar ++ ['}'],
        t.takeWhile tokChar, (t.dropWhile tokChar).tail)
  else none

/-- `contact[key]` lookup, `undefined` modelled as `none`. -/
def getField (c : Contact) (key : String) : Option String :=
  match c.find? (fun p => p.1 == key) with
  | some p => some p.2
  | none => none

/-- `key.trim()`: drop whitespace from both ends of the captured group. -/
def trimChars (l : List Char) : List Char :=
  ((l.dropWhile Char.isWhitespace).reverse.dropWhile Char.isWhitespace).reverse

/-- The replacement callback of `renderMessage`: use the contact value for the
trimmed key, or keep the whole matched text when the field is missing. -/
def replaceFor (c : Contact) (matched run : List Char) : List Char :=
  match getField c (String.mk (trimChars run)) with
  | some v => v.data
  | none => matched

/-- Attempt a placeholder match at an opening brace, `t` being the text that
follows it: `{{?` greedily takes a second opening brace when present. -/
def renderStep (t : List Char) : Option (List Char × List Char × List Char) :=
  if t.head? = some '{' then braceMatchCore 2 t.tail else braceMatchCore 1 t

/-- One left-to-right pass of `template.replace(/{{?([\w\s]+)}}?/g, ...)`.
A match can only start at `{`; on failure the scanner advances one character.
The fuel argument dominates the input length, so it never runs out when
called through `renderList`. -/
def renderAux (c : Contact) : Nat → List Char → List Char
  | 0, l => l
  | _ + 1, [] => []
  | fuel + 1, ch :: t =>
    if ch = '{' then
      match renderStep t with
      | some (m, run, r) => replaceFor c m run ++ renderAux c fuel r
      | none => ch :: renderAux c fuel t
    else ch :: renderAux c fuel t

/-- Placeholder replacement over a character list. -/
def renderList (c : Contact) (l : List Char) : List Char :=
  renderAux c (l.length + 1) l

/-- `renderMessage(template, contact)` from templateUtils.js. -/
def renderMessage (template : String) (contact : Contact) : String :=
  if template = "" then ""
  else String.mk (renderList contact template.data)

/-! ## Sending utilities (src/utils/whatsappUtils.js) -/

/-- `getRandomDelay(min, max)` returns
`Math.floor(Math.random() * (max - min + 1)) + min`, i.e. a value in
`[min, max]`.  The `Math.random()` draw is modelled by the oracle value `rv`,
reduced into the admissible range. -/
def getRandomDelay (mn mx rv : Nat) : Nat := mn + rv % (mx - mn + 1)

/-- `getCooldownDelay(messageCount, cooldownInterval = 20)`: a random delay in
`[30000, 60000]` when `messageCount` is a positive multiple of the interval,
otherwise `0`.  `rv` models the conditional `Math.random()` draw. -/
def getCooldownDelay (messageCount : Nat) (rv : Nat) (cooldownInterval : Nat) : Nat :=
  if 0 < messageCount ∧ messageCount % cooldownInterval = 0 then
    getRandomDelay 30000 60000 rv
  else 0

/-! ## The dispatch loop (src/components/BulkSender.jsx, `handleStart`)

`handleStart` is an async function: between two `await` points it runs
synchronously, and the click handlers `handleStop` / `handlePause` (which set
`sendingRef` / `pausedRef`) can only run while an `await` is pending.  The
model therefore counts completed awaits ("ticks") and consults a signal
oracle `sig : Nat → Sig` at each tick: `sig t` is the external click, if any,
delivered while the `t`-th await was pending, taking effect when it completes.

Observable effects (log appends, the transport call `openWhatsAppWeb`, the
`setProgress` updates, the awaited delays, and the report written by
`finishSending`) are recorded as a trace of tick-stamped actions.  Log
entries are identified by the contact index rather than the phone string. -/

/-- External click delivered during an await: `handleStop` clears both refs,
`handlePause` toggles `pausedRef` (modelled as explicit on/off events). -/
inductive Sig where
  | none
  | stop
  | pauseOn
  | pauseOff
deriving Repr, DecidableEq

/-- The result of one `openWhatsAppWeb` transport call: a window was opened
(truthy), a null window came back (popup blocked / falsy), or the call threw
(the `catch` branch of the loop body). -/
inductive Outcome where
  | ok
  | blocked
  | err
deriving Repr, DecidableEq

/-- The mutable context of a run of `handleStart`: the two refs, the numbers
of completed awaits and consumed `Math.random()` draws, and the local `sent`
/ `failed` counters. -/
structure RunSt where
  sending : Bool
  paused : Bool
  tick : Nat
  rnd : Nat
  sent : Nat
  failed : Nat
deriving Repr, DecidableEq

/-- One observable action of the dispatch loop. -/
inductive Action where
  | startLog (n : Nat)
  | stopLog
  | sendingLog (i : Nat)
  | sentLog (i : Nat)
  | failedLog (i : Nat)
  | attempt (i : Nat) (out : Outcome)
  | progressObs (sent failed : Nat) (pending : Int) (total : Nat)
  | waitMsg
  | pausePoll
  | cooldownLog (sent : Nat)
  | cooldownWait (ms : Nat)
  | saveReport (sent failed : Nat)
  | completeLog (sent failed : Nat)
  | stuckPaused
deriving Repr, DecidableEq

/-- A tick-stamped trace event: `tick` is the number of awaits completed
before the action happened. -/
structure TEv where
  tick : Nat
  act : Action
deriving Repr, DecidableEq

/-- Duration in milliseconds of the delay an action awaits, if any:
the inter-message countdown polls in 1000 ms steps, the pause loop polls in
500 ms steps, and the cooldown is one single delay. -/
def waitDur : Action → Option Nat
  | .waitMsg => some 1000
  | .pausePoll => some 500
  | .cooldownWait ms => some ms
  | _ => none

/-- Apply an external click to the refs. -/
def applySig (s : Sig) (st : RunSt) : RunSt :=
  match s with
  | .none => st
  | .stop => { st with sending := false, paused := false }
  | .pauseOn => { st with paused := true }
  | .pauseOff => { st with paused := false }

/-- Complete one `await delay(_)`: the signal delivered during the await takes
effect and the tick counter advances. -/
def awaitTick (sig : Nat → Sig) (st : RunSt) : RunSt :=
  let st' := applySig (sig st.tick) st
  { st' with tick := st.tick + 1 }

/-- The pause loop `while (pausedRef.current) { if (!sendingRef.current)
break; await delay(500); }`.  The loop is unbounded, so it carries fuel;
exhausting the fuel while still paused models a run that stays suspended
forever (`none`: `handleStart` never returns). -/
def pauseWait (sig : Nat → Sig) : Nat → RunSt → Option RunSt × List TEv
  | 0, st =>
    if st.paused ∧ st.sending then (none, [⟨st.tick, .stuckPaused⟩]) else (some st, [])
  | fuel + 1, st =>
    if st.paused = false then (some st, [])
    else if st.sending = false then (some st, [])
    else
      let ev : TEv := ⟨st.tick, .pausePoll⟩
      let res := pauseWait sig fuel (awaitTick sig st)
      (res.1, ev :: res.2)

/-- The countdown `for (let s = rounds; s > 0; s--) { if (!sendingRef.current)
break; await delay(1000); }` that realises the 5–15 s inter-message wait. -/
def countdown (sig : Nat → Sig) : Nat → RunSt → RunSt × List TEv
  | 0, st => (st, [])
  | r + 1, st =>
    if st.sending = false then (st, [])
    else
      let ev : TEv := ⟨st.tick, .waitMsg⟩
      let res := countdown sig r (awaitTick sig st)
      (res.1, ev :: res.2)

/-- The `setProgress` update emitted by the loop body:
`{sent, failed, pending: contacts.length - sent - failed, total:
contacts.length}` (JS subtraction, hence `pending : Int`). -/
def progEv (len : Nat) (st : RunSt) : TEv :=
  ⟨st.tick, .progressObs st.sent st.failed ((len : Int) - st.sent - st.failed) len⟩

/-- Result of one iteration of the `for` loop: either the loop ends (`halt`;
`res = none` models being stuck in the pause loop forever, in which case
`finishSending` never runs), or execution continues with the next index. -/
inductive IterRes where
  | halt (res : Option RunSt) (tr : List TEv)
  | next (st : RunSt) (tr : List TEv)

/-- The cooldown check after the inter-message countdown (BulkSender.jsx
lines 123–128): when `getCooldownDelay(sent)` is positive, log the cooldown
line and await the single cooldown delay. -/
def cooldownStep (sig : Nat → Sig) (rand : Nat → Nat) (st4 : RunSt) : RunSt × List TEv :=
  if 0 < getCooldownDelay st4.sent (rand st4.rnd) 20 then
    (awaitTick sig { st4 with rnd := st4.rnd + 1 },
      [⟨st4.tick, .cooldownLog st4.sent⟩,
        ⟨st4.tick, .cooldownWait (getCooldownDelay st4.sent (rand st4.rnd) 20)⟩])
  else (st4, [])

/-- The inter-message wait: draw the 5–15 s random delay (one
`Math.random()` draw), round it to whole seconds, and poll it down in
interruptible 1 s steps. -/
def waitPhase (sig : Nat → Sig) (rand : Nat → Nat) (st2 : RunSt) : RunSt × List TEv :=
  countdown sig ((getRandomDelay 5000 15000 (rand st2.rnd) + 500) / 1000)
    { st2 with rnd := st2.rnd + 1 }

/-- The delay section that follows a non-throwing attempt (BulkSender.jsx
lines 109–129): when contacts remain (`i < contacts.length - 1`), run the
inter-message wait, bail out silently if stopped, then run the cooldown
check. -/
def afterAttempt (sig : Nat → Sig) (rand : Nat → Nat) (len i : Nat) (st2 : RunSt)
    (tr : List TEv) : IterRes :=
  if i + 1 < len then
    if (waitPhase sig rand st2).1.sending = false then
      .halt (some (waitPhase sig rand st2).1) (tr ++ (waitPhase sig rand st2).2)
    else
      .next (cooldownStep sig rand (waitPhase sig rand st2).1).1
        (tr ++ (waitPhase sig rand st2).2 ++
          (cooldownStep sig rand (waitPhase sig rand st2).1).2)
  else .next st2 tr

/-- The attempt itself (BulkSender.jsx lines 79–141): the `sending` log, the
`openWhatsAppWeb` call, then per outcome: on success increment `sent` and log
`sent`; on a falsy window increment `failed` and log `failed`; on a thrown
exception the `catch` block increments `failed`, logs and updates progress
but skips the whole delay section.  `tr1` is the trace accumulated by the
pause loop of the same iteration. -/
def attemptPhase (sig : Nat → Sig) (rand : Nat → Nat) (outcome : Nat → Outcome)
    (len i : Nat) (st1 : RunSt) (tr1 : List TEv) : IterRes :=
  match outcome i with
  | .err =>
    .next { st1 with failed := st1.failed + 1 }
      (tr1 ++ [⟨st1.tick, .sendingLog i⟩, ⟨st1.tick, .attempt i (outcome i)⟩] ++
        [⟨st1.tick, .failedLog i⟩, progEv len { st1 with failed := st1.failed + 1 }])
  | .ok =>
    afterAttempt sig rand len i { st1 with sent := st1.sent + 1 }
      (tr1 ++ [⟨st1.tick, .sendingLog i⟩, ⟨st1.tick, .attempt i (outcome i)⟩] ++
        [⟨st1.tick, .sentLog i⟩, progEv len { st1 with sent := st1.sent + 1 }])
  | .blocked =>
    afterAttempt sig rand len i { st1 with failed := st1.failed + 1 }
      (tr1 ++ [⟨st1.tick, .sendingLog i⟩, ⟨st1.tick, .attempt i (outcome i)⟩] ++
        [⟨st1.tick, .failedLog i⟩, progEv len { st1 with failed := st1.failed + 1 }])

/-- One iteration of the dispatch loop body for contact index `i`
(BulkSender.jsx lines 65–142), in source order: top-of-loop stop check (with
its log), pause loop, silent stop check, then the attempt phase. -/
def iterBody (sig : Nat → Sig) (rand : Nat → Nat) (outcome : Nat → Outcome)
    (len pf i : Nat) (st : RunSt) : IterRes :=
  if st.sending = false then .halt (some st) [⟨st.tick, .stopLog⟩]
  else
    match (pauseWait sig pf st).1 with
    | none => .halt none (pauseWait sig pf st).2
    | some st1 =>
      if st1.sending = false then .halt (some st1) (pauseWait sig pf st).2
      else attemptPhase sig rand outcome len i st1 (pauseWait sig pf st).2

/-- The `for` loop of `handleStart`, iterating `rem` more indices starting at
`i` (callers maintain `rem = contacts.length - i`). -/
def loopRun (sig : Nat → Sig) (rand : Nat → Nat) (outcome : Nat → Outcome)
    (len pf : Nat) : Nat → Nat → RunSt → Option RunSt × List TEv
  | 0, _, st => (some st, [])
  | rem + 1, i, st =>
    match iterBody sig rand outcome len pf i st with
    | .halt res tr => (res, tr)
    | .next st' tr =>
      let rest := loopRun sig rand outcome len pf rem (i + 1) st'
      (rest.1, tr ++ rest.2)

/-- `finishSending(sent, failed)` (BulkSender.jsx lines 147–175): always push
a report to the persisted reports collection, then log the completion summary
exactly when `sent + failed === contacts.length`. -/
def finishTrace (len : Nat) (st : RunSt) : List TEv :=
  ⟨st.tick, .saveReport st.sent st.failed⟩ ::
    (if st.sent + st.failed = len then [⟨st.tick, .completeLog st.sent st.failed⟩] else [])

/-- The component's progress state: `{sent, failed, pending, total}`. -/
structure Progress where
  sent : Nat
  failed : Nat
  pending : Int
  total : Nat
deriving Repr, DecidableEq

/-- The `useState` initial value of `progress` (BulkSender.jsx lines 16–21)
for a contact list of length `n`. -/
def initialProgress (n : Nat) : Progress :=
  ⟨0, 0, (n : Int), n⟩

/-- `handleStart` (BulkSender.jsx lines 44–145): guard against empty lists,
set the refs, log the start marker, resume from `startIndex = progress.sent +
progress.failed`, run the loop, and finish (unless stuck paused forever).
`messages` only participates through the emptiness guard; the per-contact
transport result is the `outcome` oracle. -/
def handleStart (contacts : List Contact) (messages : List String) (p : Progress)
    (sig : Nat → Sig) (rand : Nat → Nat) (outcome : Nat → Outcome) (pf : Nat) :
    List TEv :=
  if contacts.length = 0 ∨ messages.length = 0 then []
  else
    let len := contacts.length
    let st0 : RunSt := ⟨true, false, 0, 0, p.sent, p.failed⟩
    let startIndex := p.sent + p.failed
    let res := loopRun sig rand outcome len pf (len - startIndex) startIndex st0
    ⟨0, .startLog len⟩ ::
      (res.2 ++ match res.1 with
        | some st => finishTrace len st
        | none => [])

/-- The trace of an iteration result. -/
def IterRes.tr : IterRes → List TEv
  | .halt _ tr => tr
  | .next _ tr => tr

/-- The state an iteration result hands on: `none` when the run is stuck in
the pause loop forever. -/
def IterRes.st? : IterRes → Option RunSt
  | .halt res _ => res
  | .next st _ => some st

/-- Indices of the contacts the loop attempted (one `openWhatsAppWeb` call
each), in order. -/
def attemptsOf (tr : List TEv) : List Nat :=
  tr.filterMap (fun e => match e.act with | .attempt i _ => some i | _ => none)

/-- Whether an action is a cooldown event (the cooldown log line or the
cooldown delay itself). -/
def isCooldownAct : Action → Bool
  | .cooldownLog _ => true
  | .cooldownWait _ => true
  | _ => false

/-- Number of cooldown delays inserted in a trace. -/
def cooldownCount (tr : List TEv) : Nat :=
  tr.countP (fun e => match e.act with | .cooldownWait _ => true | _ => false)

/-- Following the words of claim C3: how many times the `sent` counter
reached a positive multiple of 20 along a trace, starting from `s0`
(each successful attempt increments the counter). -/
def multipleHits (s0 : Nat) (tr : List TEv) : Nat :=
  (tr.foldl
    (fun acc e =>
      match e.act with
      | .attempt _ .ok =>
        if 0 < acc.2 + 1 ∧ (acc.2 + 1) % 20 = 0 then (acc.1 + 1, acc.2 + 1)
        else (acc.1, acc.2 + 1)
      | _ => acc)
    ((0, s0) : Nat × Nat)).1

/-- Actions that are part of the live dispatch activity: a transport call or
an awaited delay.  (Used to state that nothing further happens once a stop
has been observed.) -/
def activeAct : Action → Bool
  | .attempt _ _ => true
  | .waitMsg => true
  | .pausePoll => true
  | .cooldownWait _ => true
  | _ => false

/-- Oracle constants used by concrete scenario runs: no external clicks, all
`Math.random()` draws at the window minimum, every transport call succeeds. -/
def noSig : Nat → Sig := fun _ => Sig.none

/-- Random-draw oracle returning the minimum of each window. -/
def zeroRand : Nat → Nat := fun _ => 0

/-- Transport oracle: every `openWhatsAppWeb` call opens a window. -/
def allOk : Nat → Outcome := fun _ => Outcome.ok

/-- A list of `n` featureless contacts (the loop reads only the length). -/
def blankContacts (n : Nat) : List Contact := List.replicate n []

/-- A list of `n` identical rendered messages. -/
def blankMsgs (n : Nat) : List String := List.replicate n "m"

/-! ## Lemmas about deduplication -/

theorem dedupGo_sublist (l : List Contact) : ∀ seen, (dedupGo seen l).Sublist l := by
  induction l with
  | nil => intro seen; simp [dedupGo]
  | cons c t ih =>
    intro seen
    simp only [dedupGo]
    split
    · exact (ih _).cons₂ c
    · exact (ih _).cons c

theorem mem_dedupGo (l : List Contact) : ∀ seen c, c ∈ dedupGo seen l →
    phoneOf c ≠ "" ∧ phoneOf c ∉ seen := by
  induction l with
  | nil => intro seen c hc; simp [dedupGo] at hc
  | cons a t ih =>
    intro seen c hc
    simp only [dedupGo] at hc
    split at hc
    case isTrue h =>
      rcases List.mem_cons.1 hc with rfl | hmem
      · exact h
      · have h2 := ih _ _ hmem
        exact ⟨h2.1, fun hs => h2.2 (List.mem_cons_of_mem _ hs)⟩
    case isFalse h => exact ih _ _ hc

theorem nodup_dedupGo (l : List Contact) : ∀ seen, ((dedupGo seen l).map phoneOf).Nodup := by
  induction l with
  | nil => intro seen; simp [dedupGo]
  | cons a t ih =>
    intro seen
    simp only [dedupGo]
    split
    case isTrue h =>
      simp only [List.map_cons, List.nodup_cons]
      refine ⟨fun hmem => ?_, ih _⟩
      rcases List.mem_map.1 hmem with ⟨c, hc, hpc⟩
      have h2 := mem_dedupGo t _ c hc
      exact h2.2 (by rw [hpc]; exact List.mem_cons_self _ _)
    case isFalse => exact ih _

theorem find?_dedupGo (l : List Contact) : ∀ seen (p : String), p ≠ "" → p ∉ seen →
    (dedupGo seen l).find? (fun c => phoneOf c == p) =
      l.find? (fun c => phoneOf c == p) := by
  induction l with
  | nil => intro seen p _ _; simp [dedupGo]
  | cons a t ih =>
    intro seen p hp hps
    simp only [dedupGo]
    by_cases hap : phoneOf a = p
    · have hkeep : phoneOf a ≠ "" ∧ phoneOf a ∉ seen := by
        rw [hap]; exact ⟨hp, hps⟩
      rw [if_pos hkeep]
      simp [List.find?, hap]
    · have hb : (phoneOf a == p) = false := by simp [hap]
      split
      · have hih := ih (phoneOf a :: seen) p hp (by
          intro hmem
          rcases List.mem_cons.1 hmem with h1 | h2
          · exact hap h1.symm
          · exact hps h2)
        simpa [List.find?, hb] using hih
      · have hih := ih seen p hp hps
        simpa [List.find?, hb] using hih

/-- C7 counterexample: a record with no phone field has not "already appeared
earlier in the sequence", yet `deduplicateContacts` drops it, so the code
disagrees with the claim's description on this input. -/
theorem dedupe_drops_phoneless_counterexample :
    deduplicateContacts [[("name", "x")]] ≠ dedupClaimGo [] [[("name", "x")]] := by
  decide

/-- C7 (amended): `deduplicateContacts` keeps a subsequence of its input
(relative order preserved), the kept records have pairwise distinct phones,
every kept record has a non-empty phone, and for every non-empty phone value
the first kept record carrying it is exactly the first input record carrying
it (first occurrence wins).  Together: it drops exactly the records whose
phone is empty/missing or has already appeared earlier. -/
theorem dedupe_amended_characterization (l : List Contact) :
    (deduplicateContacts l).Sublist l ∧
    ((deduplicateContacts l).map phoneOf).Nodup ∧
    (∀ c ∈ deduplicateContacts l, phoneOf c ≠ "") ∧
    (∀ p : String, p ≠ "" →
      (deduplicateContacts l).find? (fun c => phoneOf c == p) =
        l.find? (fun c => phoneOf c == p)) := by
  refine ⟨dedupGo_sublist l [], nodup_dedupGo l [], ?_, ?_⟩
  · intro c hc
    exact (mem_dedupGo l [] c hc).1
  · intro p hp
    exact find?_dedupGo l [] p hp (by simp)

/-- Witness for the amended C7 theorem at a concrete input with a duplicated
phone and a phone-less record. -/
theorem dedupe_amended_characterization_witness :
    ("+256700000001" ≠ "") ∧
    (deduplicateContacts
        [[("phone", "+256700000001"), ("name", "a")], [("name", "x")],
          [("phone", "+256700000001"), ("name", "b")]]).find?
        (fun c => phoneOf c == "+256700000001") =
      ([[("phone", "+256700000001"), ("name", "a")], [("name", "x")],
          [("phone", "+256700000001"), ("name", "b")]].find?
        (fun c => phoneOf c == "+256700000001")) :=
  ⟨by decide, (dedupe_amended_characterization _).2.2.2 "+256700000001" (by decide)⟩

/-- C10: every record kept by `deduplicateContacts` has a non-empty phone;
phone-less records are dropped even on first appearance. -/
theorem dedupe_output_phones_nonempty (l : List Contact) (c : Contact)
    (hc : c ∈ deduplicateContacts l) : phoneOf c ≠ "" :=
  (mem_dedupGo l [] c hc).1

/-- Witness for C10: concrete input containing a phone-less record. -/
theorem dedupe_output_phones_nonempty_witness :
    (([("phone", "+15550000001")] : Contact) ∈
        deduplicateContacts [[("phone", "+15550000001")], [("name", "x")]]) ∧
    phoneOf [("phone", "+15550000001")] ≠ "" :=
  ⟨by decide,
    dedupe_output_phones_nonempty [[("phone", "+15550000001")], [("name", "x")]]
      [("phone", "+15550000001")] (by decide)⟩

/-! ## Lemmas about phone normalization -/

theorem phoneGate_shape (full : List Char) (r : String) (h : phoneGate full = some r) :
    r.data = full ∧ 7 ≤ (full.filter (fun c => c ≠ '+')).length ∧
      (full.filter (fun c => c ≠ '+')).length ≤ 15 := by
  unfold phoneGate at h
  split at h
  · exact absurd h (by simp)
  · next hcond =>
    push_neg at hcond
    cases h
    exact ⟨rfl, hcond.1, hcond.2⟩

/-- C9 counterexample: the code keeps every `+` of the input (the JS filter is
`[^\d+]`), so a non-leading `+` survives into the output, while the claim
says everything except digits and a leading `+` is stripped. -/
theorem normalize_keeps_interior_plus_counterexample :
    normalizePhone "+256+7123456" "+256" ≠ normalizeClaim "+256+7123456" "+256" := by
  decide

/-- C9 (amended): `normalizePhone` keeps *all* digit and `+` characters of
the input (a non-leading `+` survives); the branch condition is taken on the
cleaned text, not the raw input; when the cleaned text does not start with
`+` it strips one leading `0` and prepends the default country code; the
result is accepted only when its character count excluding `+` lies in
`[7,15]`; and the two concrete examples of the claim hold. -/
theorem normalize_amended_characterization :
    (∀ s d r : String, (∀ ch ∈ d.data, keepDigitOrPlus ch = true) →
      normalizePhone s d = some r →
        (∀ ch ∈ r.data, keepDigitOrPlus ch = true) ∧
        7 ≤ (r.data.filter (fun c => c ≠ '+')).length ∧
        (r.data.filter (fun c => c ≠ '+')).length ≤ 15) ∧
    normalizePhone "0712345678" "+256" = some "+256712345678" ∧
    normalizePhone "abc" "+256" = none ∧
    (∀ s d : String, s ≠ "" → (cleanPhone s).head? ≠ some '+' →
      normalizePhone s d = phoneGate (localStep d (cleanPhone s))) := by
  refine ⟨?_, by decide, by decide, ?_⟩
  · intro s d r hd h
    unfold normalizePhone at h
    split at h
    · exact absurd h (by simp)
    · split at h
      · split at h
        · have hsh := phoneGate_shape _ _ h
          refine ⟨?_, by rw [hsh.1]; exact hsh.2.1, by rw [hsh.1]; exact hsh.2.2⟩
          intro ch hch
          rw [hsh.1] at hch
          exact (List.mem_filter.1 hch).2
        · exact absurd h (by simp)
      · have hsh := phoneGate_shape _ _ h
        refine ⟨?_, by rw [hsh.1]; exact hsh.2.1, by rw [hsh.1]; exact hsh.2.2⟩
        intro ch hch
        rw [hsh.1] at hch
        unfold localStep at hch
        rcases List.mem_append.1 hch with hch | hch
        · exact hd ch hch
        · have hclean : ch ∈ cleanPhone s := by
            split at hch
            · exact List.mem_of_mem_tail hch
            · exact hch
          exact (List.mem_filter.1 hclean).2
  · intro s d hs hplus
    unfold normalizePhone
    rw [if_neg hs, if_neg hplus]

/-- Witness for the amended C9 theorem, at the claim's own example input. -/
theorem normalize_amended_characterization_witness :
    ((∀ ch ∈ ("+256" : String).data, keepDigitOrPlus ch = true) ∧
      normalizePhone "0712345678" "+256" = some "+256712345678") ∧
    7 ≤ (("+256712345678" : String).data.filter (fun c => c ≠ '+')).length :=
  ⟨⟨by decide, by decide⟩,
    (normalize_amended_characterization.1 "0712345678" "+256" "+256712345678"
      (by decide) (by decide)).2.1⟩

/-! ## Lemmas about template rendering -/

theorem braceMatchCore_rem_length {n : Nat} {t m run r : List Char}
    (h : braceMatchCore n t = some (m, run, r)) : r.length < t.length := by
  have hsplit : (t.takeWhile tokChar).length + (t.dropWhile tokChar).length = t.length := by
    rw [← List.length_append, List.takeWhile_append_dropWhile]
  unfold braceMatchCore at h
  split at h
  · exact absurd h (by simp)
  · next hne =>
    have htk : 1 ≤ (t.takeWhile tokChar).length := by
      rcases htk' : t.takeWhile tokChar with _ | ⟨a, l⟩
      · rw [htk'] at hne; exact absurd rfl hne
      · simp
    split at h
    · next hhd =>
      have hdw : 1 ≤ (t.dropWhile tokChar).length := by
        rcases hdw' : t.dropWhile tokChar with _ | ⟨a, l⟩
        · rw [hdw'] at hhd; exact absurd hhd (by simp)
        · simp
      have htail : (t.dropWhile tokChar).tail.length = (t.dropWhile tokChar).length - 1 :=
        List.length_tail _
      split at h
      · cases h
        have : (t.dropWhile tokChar).tail.tail.length =
            (t.dropWhile tokChar).tail.length - 1 := List.length_tail _
        omega
      · cases h
        omega
    · exact absurd h (by simp)

theorem renderAux_fuel (c : Contact) : ∀ f1 l f2, l.length < f1 → l.length < f2 →
    renderAux c f1 l = renderAux c f2 l := by
  intro f1
  induction f1 with
  | zero => intro l f2 h1 _; exact absurd h1 (Nat.not_lt_zero _)
  | succ f ih =>
    intro l f2 h1 h2
    cases l with
    | nil =>
      cases f2 with
      | zero => exact absurd h2 (Nat.not_lt_zero _)
      | succ f2' => rfl
    | cons ch t =>
      cases f2 with
      | zero => exact absurd h2 (Nat.not_lt_zero _)
      | succ f2' =>
        have ht1 : t.length < f := by simp at h1; omega
        have ht2 : t.length < f2' := by simp at h2; omega
        simp only [renderAux]
        by_cases hch : ch = '{'
        · rw [if_pos hch, if_pos hch]
          rcases hb : renderStep t with _ | ⟨m, run, r⟩
          · simp only [hb]
            rw [ih t f2' ht1 ht2]
          · have hr : r.length < t.length := by
              unfold renderStep at hb
              split at hb
              · have h3 := braceMatchCore_rem_length hb
                have h4 : t.tail.length = t.length - 1 := List.length_tail _
                omega
              · exact braceMatchCore_rem_length hb
            simp only [hb]
            rw [ih r f2' (by omega) (by omega)]
        · rw [if_neg hch, if_neg hch, ih t f2' ht1 ht2]

theorem takeWhile_all_append (k post : List Char) (b : Char)
    (hk : ∀ ch ∈ k, tokChar ch = true) (hb : tokChar b = false) :
    (k ++ b :: post).takeWhile tokChar = k ∧
      (k ++ b :: post).dropWhile tokChar = b :: post := by
  induction k with
  | nil => simp [List.takeWhile_cons, List.dropWhile_cons, hb]
  | cons a t ih =>
    have ha : tokChar a = true := hk a (by simp)
    have iht := ih (fun ch hch => hk ch (by simp [hch]))
    simp [List.takeWhile_cons, List.dropWhile_cons, ha, iht.1, iht.2]

theorem braceMatchCore_eval (openLen : Nat) (k post : List Char)
    (hk : k ≠ []) (hkc : ∀ ch ∈ k, tokChar ch = true) (hpost : post.head? ≠ some '}') :
    braceMatchCore openLen (k ++ '}' :: post) =
      some (List.replicate openLen '{' ++ k ++ ['}'], k, post) := by
  have hsplit := takeWhile_all_append k post '}' hkc (by decide)
  unfold braceMatchCore
  rw [hsplit.1, hsplit.2]
  rw [if_neg (by simp [hk])]
  rw [if_pos (by simp)]
  rw [if_neg (by simpa using hpost)]
  rfl

theorem renderAux_step_match (c : Contact) (k post : List Char) (fuel : Nat)
    (hk : k ≠ []) (hkc : ∀ ch ∈ k, tokChar ch = true) (hpost : post.head? ≠ some '}') :
    renderAux c (fuel + 1) ('{' :: (k ++ '}' :: post)) =
      replaceFor c ('{' :: (k ++ ['}'])) k ++ renderAux c fuel post := by
  obtain ⟨kh, kt, rfl⟩ : ∃ kh kt, k = kh :: kt := by
    cases k with
    | nil => exact absurd rfl hk
    | cons kh kt => exact ⟨kh, kt, rfl⟩
  have hkh : tokChar kh = true := hkc kh (by simp)
  have hkhne : kh ≠ '{' := by
    intro h; rw [h] at hkh; exact absurd hkh (by decide)
  have hcond : ¬(((kh :: kt) ++ '}' :: post).head? = some '{') := by
    simp [hkhne]
  have hstep : renderStep ((kh :: kt) ++ '}' :: post) =
      some (List.replicate 1 '{' ++ (kh :: kt) ++ ['}'], kh :: kt, post) := by
    unfold renderStep
    rw [if_neg hcond]
    exact braceMatchCore_eval 1 (kh :: kt) post hk hkc hpost
  simp only [renderAux, if_pos (show ('{' : Char) = '{' from rfl), hstep]
  simp [List.replicate]

theorem renderList_split (c : Contact) (pre k post : List Char)
    (hpre : '{' ∉ pre) (hk : k ≠ []) (hkc : ∀ ch ∈ k, tokChar ch = true)
    (hpost : post.head? ≠ some '}') :
    renderList c (pre ++ '{' :: (k ++ '}' :: post)) =
      pre ++ replaceFor c ('{' :: (k ++ ['}'])) k ++ renderList c post := by
  induction pre with
  | nil =>
    simp only [List.nil_append, renderList, List.length_cons]
    rw [renderAux_step_match c k post ((k ++ '}' :: post).length + 1) hk hkc hpost]
    rw [renderAux_fuel c ((k ++ '}' :: post).length + 1) post (post.length + 1)
      (by simp; omega) (by omega)]
  | cons a pre' ih =>
    have ha : a ≠ '{' := fun h => hpre (h ▸ List.mem_cons_self _ _)
    have hpre' : '{' ∉ pre' := fun h => hpre (List.mem_cons_of_mem _ h)
    have hstep : renderList c ((a :: pre') ++ ('{' :: (k ++ '}' :: post))) =
        a :: renderList c (pre' ++ ('{' :: (k ++ '}' :: post))) := by
      simp only [List.cons_append, renderList, List.length_cons]
      simp only [renderAux, if_neg ha]
    rw [hstep, ih hpre']
    simp

/-- C8: `renderMessage` substitutes each placeholder occurrence whose trimmed
field name exists on the contact with that field's value and leaves a
placeholder with no matching field verbatim (the whole matched text,
braces included, is kept), as shown by the general single-occurrence
decomposition and by the claim's two concrete examples. -/
theorem render_replaces_or_keeps_placeholders :
    renderMessage "Hi {first_name}" [("first_name", "Amara")] = "Hi Amara" ∧
    renderMessage "Hi {missing}" [("first_name", "Amara")] = "Hi {missing}" ∧
    (∀ (c : Contact) (pre k post : List Char), '{' ∉ pre → k ≠ [] →
      (∀ ch ∈ k, tokChar ch = true) → post.head? ≠ some '}' →
      renderList c (pre ++ '{' :: (k ++ '}' :: post)) =
        pre ++ replaceFor c ('{' :: (k ++ ['}'])) k ++ renderList c post) := by
  refine ⟨by decide, by decide, ?_⟩
  intro c pre k post hpre hk hkc hpost
  exact renderList_split c pre k post hpre hk hkc hpost

/-- Witness for C8 at a concrete template split `"Hi " ++ "{name}" ++ "!"`
against a contact that has the field. -/
theorem render_replaces_or_keeps_placeholders_witness :
    (('{' ∉ ("Hi " : String).data) ∧ ("name" : String).data ≠ [] ∧
      (∀ ch ∈ ("name" : String).data, tokChar ch = true) ∧
      ("!" : String).data.head? ≠ some '}') ∧
    renderList [("name", "Bob")]
        (("Hi " : String).data ++ '{' :: (("name" : String).data ++ '}' :: ("!" : String).data)) =
      ("Hi " : String).data ++
        replaceFor [("name", "Bob")] ('{' :: (("name" : String).data ++ ['}']))
          ("name" : String).data ++
        renderList [("name", "Bob")] ("!" : String).data :=
  ⟨⟨by decide, by decide, by decide, by decide⟩,
    render_replaces_or_keeps_placeholders.2.2 [("name", "Bob")] ("Hi " : String).data
      ("name" : String).data ("!" : String).data (by decide) (by decide) (by decide)
      (by decide)⟩

/-! ## Lemmas about the dispatch loop: signals and waits -/

theorem applySig_counters (s : Sig) (st : RunSt) :
    (applySig s st).sent = st.sent ∧ (applySig s st).failed = st.failed ∧
      (applySig s st).rnd = st.rnd ∧ (applySig s st).tick = st.tick := by
  cases s <;> simp [applySig]

theorem applySig_sending (s : Sig) (st : RunSt)
    (h : (applySig s st).sending = true) : st.sending = true := by
  cases s <;> simp only [applySig] at h
  case stop => exact absurd h (by simp)
  all_goals exact h

theorem applySig_stop (st : RunSt) : (applySig Sig.stop st).sending = false := rfl

theorem awaitTick_counters (sig : Nat → Sig) (st : RunSt) :
    (awaitTick sig st).sent = st.sent ∧ (awaitTick sig st).failed = st.failed ∧
      (awaitTick sig st).rnd = st.rnd ∧ (awaitTick sig st).tick = st.tick + 1 := by
  have h := applySig_counters (sig st.tick) st
  simp [awaitTick, h.1, h.2.1, h.2.2.1]

/-- The stop-propagation invariant for C5: once the tick counter has passed a
tick at which a stop click was delivered, `sendingRef` is false (nothing ever
sets it back to true inside a run). -/
def StopInv (t : Nat) (st : RunSt) : Prop :=
  t < st.tick → st.sending = false

theorem awaitTick_stopInv (sig : Nat → Sig) (t : Nat) (st : RunSt)
    (hsig : sig t = Sig.stop) (hinv : StopInv t st) : StopInv t (awaitTick sig st) := by
  intro hlt
  have htick : (awaitTick sig st).tick = st.tick + 1 := (awaitTick_counters sig st).2.2.2
  rw [htick] at hlt
  rcases Nat.lt_or_ge t st.tick with hc | hc
  · by_cases hs : (awaitTick sig st).sending = true
    · have := applySig_sending (sig st.tick) st (by simpa [awaitTick] using hs)
      rw [hinv hc] at this
      exact absurd this (by simp)
    · simp at hs; exact hs
  · have ht : t = st.tick := by omega
    subst ht
    simp [awaitTick, hsig, applySig]

theorem pauseWait_acts (sig : Nat → Sig) :
    ∀ (f : Nat) (st : RunSt), ∀ e ∈ (pauseWait sig f st).2,
      e.act = Action.pausePoll ∨ e.act = Action.stuckPaused := by
  intro f
  induction f with
  | zero =>
    intro st e he
    simp only [pauseWait] at he
    split at he
    · simp at he; simp [he]
    · simp at he
  | succ f ih =>
    intro st e he
    simp only [pauseWait] at he
    split at he
    · simp at he
    · split at he
      · simp at he
      · rcases List.mem_cons.1 he with rfl | hmem
        · simp
        · exact ih _ e hmem

theorem pauseWait_counters (sig : Nat → Sig) :
    ∀ (f : Nat) (st st' : RunSt), (pauseWait sig f st).1 = some st' →
      st'.sent = st.sent ∧ st'.failed = st.failed ∧ st'.rnd = st.rnd := by
  intro f
  induction f with
  | zero =>
    intro st st' h
    simp only [pauseWait] at h
    split at h
    · simp at h
    · simp at h; simp [← h]
  | succ f ih =>
    intro st st' h
    simp only [pauseWait] at h
    split at h
    · simp at h; simp [← h]
    · split at h
      · simp at h; simp [← h]
      · have h2 := ih (awaitTick sig st) st' h
        have h3 := awaitTick_counters sig st
        exact ⟨h2.1.trans h3.1, h2.2.1.trans h3.2.1, h2.2.2.trans h3.2.2.1⟩

theorem pauseWait_stopInv (sig : Nat → Sig) (t : Nat) (hsig : sig t = Sig.stop) :
    ∀ (f : Nat) (st : RunSt), StopInv t st →
      (∀ e ∈ (pauseWait sig f st).2, activeAct e.act = true → e.tick ≤ t) ∧
      (∀ st', (pauseWait sig f st).1 = some st' → StopInv t st') := by
  intro f
  induction f with
  | zero =>
    intro st hinv
    constructor
    · intro e he hact
      simp only [pauseWait] at he
      split at he
      · simp at he; rw [he] at hact; simp [activeAct] at hact
      · simp at he
    · intro st' h
      simp only [pauseWait] at h
      split at h
      · simp at h
      · simp at h; rw [← h]; exact hinv
  | succ f ih =>
    intro st hinv
    have ihA := ih (awaitTick sig st) (awaitTick_stopInv sig t st hsig hinv)
    constructor
    · intro e he hact
      simp only [pauseWait] at he
      split at he
      · simp at he
      · split at he
        · simp at he
        · next hpa hsn =>
          rcases List.mem_cons.1 he with rfl | hmem
          · show st.tick ≤ t
            by_contra hgt
            have := hinv (by omega)
            simp [this] at hsn
          · exact ihA.1 e hmem hact
    · intro st' h
      simp only [pauseWait] at h
      split at h
      · simp at h; rw [← h]; exact hinv
      · split at h
        · simp at h; rw [← h]; exact hinv
        · exact ihA.2 st' h

theorem countdown_acts (sig : Nat → Sig) :
    ∀ (r : Nat) (st : RunSt), ∀ e ∈ (countdown sig r st).2, e.act = Action.waitMsg := by
  intro r
  induction r with
  | zero => intro st e he; simp [countdown] at he
  | succ r ih =>
    intro st e he
    simp only [countdown] at he
    split at he
    · simp at he
    · rcases List.mem_cons.1 he with rfl | hmem
      · simp
      · exact ih _ e hmem

theorem countdown_counters (sig : Nat → Sig) :
    ∀ (r : Nat) (st : RunSt),
      (countdown sig r st).1.sent = st.sent ∧ (countdown sig r st).1.failed = st.failed ∧
        (countdown sig r st).1.rnd = st.rnd := by
  intro r
  induction r with
  | zero => intro st; simp [countdown]
  | succ r ih =>
    intro st
    simp only [countdown]
    split
    · simp
    · have h2 := ih (awaitTick sig st)
      have h3 := awaitTick_counters sig st
      exact ⟨h2.1.trans h3.1, h2.2.1.trans h3.2.1, h2.2.2.trans h3.2.2.1⟩

theorem countdown_stopInv (sig : Nat → Sig) (t : Nat) (hsig : sig t = Sig.stop) :
    ∀ (r : Nat) (st : RunSt), StopInv t st →
      (∀ e ∈ (countdown sig r st).2, activeAct e.act = true → e.tick ≤ t) ∧
      StopInv t (countdown sig r st).1 := by
  intro r
  induction r with
  | zero => intro st hinv; constructor
            · intro e he _; simp [countdown] at he
            · simpa [countdown] using hinv
  | succ r ih =>
    intro st hinv
    have ihA := ih (awaitTick sig st) (awaitTick_stopInv sig t st hsig hinv)
    constructor
    · intro e he hact
      simp only [countdown] at he
      split at he
      · simp at he
      · next hsn =>
        rcases List.mem_cons.1 he with rfl | hmem
        · show st.tick ≤ t
          by_contra hgt
          have := hinv (by omega)
          simp [this] at hsn
        · exact ihA.1 e hmem hact
    · simp only [countdown]
      split
      · exact hinv
      · exact ihA.2

/-! ## Lemmas about the cooldown and the wait phase -/

theorem getCooldownDelay_pos {m rv : Nat} (h : 0 < getCooldownDelay m rv 20) :
    0 < m ∧ m % 20 = 0 ∧ 30000 ≤ getCooldownDelay m rv 20 ∧
      getCooldownDelay m rv 20 ≤ 60000 := by
  by_cases hc : 0 < m ∧ m % 20 = 0
  · have hmod : rv % 30001 < 30001 := Nat.mod_lt rv (by norm_num)
    refine ⟨hc.1, hc.2, ?_, ?_⟩ <;> simp only [getCooldownDelay, if_pos hc, getRandomDelay] <;>
      omega
  · rw [getCooldownDelay, if_neg hc] at h
    exact absurd h (by simp)

theorem cooldownStep_acts (sig : Nat → Sig) (rand : Nat → Nat) (st4 : RunSt) :
    ∀ e ∈ (cooldownStep sig rand st4).2,
      (e.act = Action.cooldownLog st4.sent ∨
        ∃ ms, e.act = Action.cooldownWait ms ∧ 30000 ≤ ms ∧ ms ≤ 60000) ∧
      0 < st4.sent ∧ st4.sent % 20 = 0 ∧ e.tick = st4.tick := by
  intro e he
  unfold cooldownStep at he
  split at he
  · next hcd =>
    have hp := getCooldownDelay_pos hcd
    rcases List.mem_cons.1 he with rfl | he2
    · exact ⟨Or.inl rfl, hp.1, hp.2.1, rfl⟩
    · rcases List.mem_cons.1 he2 with rfl | he3
      · exact ⟨Or.inr ⟨_, rfl, hp.2.2.1, hp.2.2.2⟩, hp.1, hp.2.1, rfl⟩
      · simp at he3
  · simp at he

theorem cooldownStep_counters (sig : Nat → Sig) (rand : Nat → Nat) (st4 : RunSt) :
    (cooldownStep sig rand st4).1.sent = st4.sent ∧
      (cooldownStep sig rand st4).1.failed = st4.failed := by
  unfold cooldownStep
  split
  · have h := awaitTick_counters sig { st4 with rnd := st4.rnd + 1 }
    exact ⟨h.1, h.2.1⟩
  · exact ⟨rfl, rfl⟩

theorem cooldownStep_stopInv (sig : Nat → Sig) (rand : Nat → Nat) (t : Nat) (st4 : RunSt)
    (hsig : sig t = Sig.stop) (hinv : StopInv t st4) :
    StopInv t (cooldownStep sig rand st4).1 := by
  unfold cooldownStep
  split
  · exact awaitTick_stopInv sig t { st4 with rnd := st4.rnd + 1 } hsig hinv
  · exact hinv

theorem waitPhase_acts (sig : Nat → Sig) (rand : Nat → Nat) (st2 : RunSt) :
    ∀ e ∈ (waitPhase sig rand st2).2, e.act = Action.waitMsg :=
  countdown_acts sig _ _

theorem waitPhase_counters (sig : Nat → Sig) (rand : Nat → Nat) (st2 : RunSt) :
    (waitPhase sig rand st2).1.sent = st2.sent ∧
      (waitPhase sig rand st2).1.failed = st2.failed := by
  have h := countdown_counters sig
    ((getRandomDelay 5000 15000 (rand st2.rnd) + 500) / 1000) { st2 with rnd := st2.rnd + 1 }
  exact ⟨h.1, h.2.1⟩

theorem waitPhase_stopInv (sig : Nat → Sig) (rand : Nat → Nat) (t : Nat) (st2 : RunSt)
    (hsig : sig t = Sig.stop) (hinv : StopInv t st2) :
    (∀ e ∈ (waitPhase sig rand st2).2, activeAct e.act = true → e.tick ≤ t) ∧
      StopInv t (waitPhase sig rand st2).1 :=
  countdown_stopInv sig t hsig _ { st2 with rnd := st2.rnd + 1 } hinv

/-! ## Lemmas about the post-attempt delay section -/

theorem afterAttempt_shape (sig : Nat → Sig) (rand : Nat → Nat) (len i : Nat)
    (st2 : RunSt) (tr : List TEv) :
    ∃ added, (afterAttempt sig rand len i st2 tr).tr = tr ++ added ∧
      ∀ e ∈ added, e.act = Action.waitMsg ∨
        ((e.act = Action.cooldownLog st2.sent ∨
          ∃ ms, e.act = Action.cooldownWait ms ∧ 30000 ≤ ms ∧ ms ≤ 60000) ∧
         0 < st2.sent ∧ st2.sent % 20 = 0) := by
  unfold afterAttempt
  split
  · split
    · refine ⟨(waitPhase sig rand st2).2, rfl, ?_⟩
      intro e he
      exact Or.inl (waitPhase_acts sig rand st2 e he)
    · refine ⟨(waitPhase sig rand st2).2 ++ (cooldownStep sig rand (waitPhase sig rand st2).1).2,
        by simp [IterRes.tr], ?_⟩
      intro e he
      rcases List.mem_append.1 he with hm | hm
      · exact Or.inl (waitPhase_acts sig rand st2 e hm)
      · have hc := cooldownStep_acts sig rand (waitPhase sig rand st2).1 e hm
        have hsent := (waitPhase_counters sig rand st2).1
        rw [hsent] at hc
        exact Or.inr ⟨hc.1, hc.2.1, hc.2.2.1⟩
  · exact ⟨[], by simp [IterRes.tr], by simp⟩

theorem afterAttempt_counters (sig : Nat → Sig) (rand : Nat → Nat) (len i : Nat)
    (st2 : RunSt) (tr : List TEv) :
    ∀ st', (afterAttempt sig rand len i st2 tr).st? = some st' →
      st'.sent = st2.sent ∧ st'.failed = st2.failed := by
  intro st' h
  unfold afterAttempt at h
  split at h
  · split at h
    · simp only [IterRes.st?, Option.some.injEq] at h
      rw [← h]
      exact waitPhase_counters sig rand st2
    · simp only [IterRes.st?, Option.some.injEq] at h
      rw [← h]
      have h1 := cooldownStep_counters sig rand (waitPhase sig rand st2).1
      have h2 := waitPhase_counters sig rand st2
      exact ⟨h1.1.trans h2.1, h1.2.trans h2.2⟩
  · simp only [IterRes.st?, Option.some.injEq] at h
    rw [← h]
    exact ⟨rfl, rfl⟩

theorem afterAttempt_stopInv (sig : Nat → Sig) (rand : Nat → Nat) (len i : Nat)
    (st2 : RunSt) (tr : List TEv) (t : Nat)
    (hsig : sig t = Sig.stop) (hinv : StopInv t st2)
    (htr : ∀ e ∈ tr, activeAct e.act = true → e.tick ≤ t) :
    (∀ e ∈ (afterAttempt sig rand len i st2 tr).tr, activeAct e.act = true → e.tick ≤ t) ∧
    (∀ st', (afterAttempt sig rand len i st2 tr).st? = some st' → StopInv t st') := by
  have hwp := waitPhase_stopInv sig rand t st2 hsig hinv
  unfold afterAttempt
  split
  · split
    · next hsend =>
      refine ⟨?_, ?_⟩
      · intro e he hact
        rcases List.mem_append.1 he with hm | hm
        · exact htr e hm hact
        · exact hwp.1 e hm hact
      · intro st' h
        simp only [IterRes.st?, Option.some.injEq] at h
        rw [← h]
        exact hwp.2
    · next hsend =>
      refine ⟨?_, ?_⟩
      · intro e he hact
        rcases List.mem_append.1 he with hm | hm
        · rcases List.mem_append.1 hm with hm2 | hm2
          · exact htr e hm2 hact
          · exact hwp.1 e hm2 hact
        · have hc := cooldownStep_acts sig rand (waitPhase sig rand st2).1 e hm
          rw [hc.2.2.2]
          by_contra hgt
          have hfalse := hwp.2 (by omega)
          simp [hfalse] at hsend
      · intro st' h
        simp only [IterRes.st?, Option.some.injEq] at h
        rw [← h]
        exact cooldownStep_stopInv sig rand t _ hsig hwp.2
  · refine ⟨fun e he hact => htr e he hact, ?_⟩
    intro st' h
    simp only [IterRes.st?, Option.some.injEq] at h
    rw [← h]
    exact hinv

/-! ## Lemmas about the attempt phase -/

theorem attemptPhase_shape (sig : Nat → Sig) (rand : Nat → Nat) (outcome : Nat → Outcome)
    (len i : Nat) (st1 : RunSt) (tr1 : List TEv) :
    ∃ (st2 : RunSt) (lg : Action) (added : List TEv),
      (lg = Action.sentLog i ∨ lg = Action.failedLog i) ∧
      (attemptPhase sig rand outcome len i st1 tr1).tr =
        tr1 ++ [⟨st1.tick, Action.sendingLog i⟩, ⟨st1.tick, Action.attempt i (outcome i)⟩] ++
          [⟨st1.tick, lg⟩, progEv len st2] ++ added ∧
      (outcome i = Outcome.ok → st2 = { st1 with sent := st1.sent + 1 }) ∧
      (outcome i ≠ Outcome.ok → st2 = { st1 with failed := st1.failed + 1 }) ∧
      (∀ e ∈ added, e.act = Action.waitMsg ∨
        ((e.act = Action.cooldownLog st2.sent ∨
          ∃ ms, e.act = Action.cooldownWait ms ∧ 30000 ≤ ms ∧ ms ≤ 60000) ∧
         0 < st2.sent ∧ st2.sent % 20 = 0)) := by
  unfold attemptPhase
  cases ho : outcome i with
  | err =>
    exact ⟨{ st1 with failed := st1.failed + 1 }, Action.failedLog i, [], Or.inr rfl,
      by simp [IterRes.tr], fun h => Outcome.noConfusion h, fun _ => rfl, by simp⟩
  | ok =>
    obtain ⟨added, htr, hadd⟩ := afterAttempt_shape sig rand len i
      { st1 with sent := st1.sent + 1 }
      (tr1 ++ [⟨st1.tick, Action.sendingLog i⟩, ⟨st1.tick, Action.attempt i Outcome.ok⟩] ++
        [⟨st1.tick, Action.sentLog i⟩, progEv len { st1 with sent := st1.sent + 1 }])
    exact ⟨{ st1 with sent := st1.sent + 1 }, Action.sentLog i, added, Or.inl rfl,
      by simpa using htr, fun _ => rfl, fun h => absurd rfl h, hadd⟩
  | blocked =>
    obtain ⟨added, htr, hadd⟩ := afterAttempt_shape sig rand len i
      { st1 with failed := st1.failed + 1 }
      (tr1 ++ [⟨st1.tick, Action.sendingLog i⟩, ⟨st1.tick, Action.attempt i Outcome.blocked⟩] ++
        [⟨st1.tick, Action.failedLog i⟩, progEv len { st1 with failed := st1.failed + 1 }])
    exact ⟨{ st1 with failed := st1.failed + 1 }, Action.failedLog i, added, Or.inr rfl,
      by simpa using htr, fun h => Outcome.noConfusion h, fun _ => rfl, hadd⟩

theorem attemptPhase_counters (sig : Nat → Sig) (rand : Nat → Nat) (outcome : Nat → Outcome)
    (len i : Nat) (st1 : RunSt) (tr1 : List TEv) :
    ∀ st', (attemptPhase sig rand outcome len i st1 tr1).st? = some st' →
      st'.sent + st'.failed = st1.sent + st1.failed + 1 ∧
      (outcome i = Outcome.ok → st'.sent = st1.sent + 1) ∧
      (outcome i ≠ Outcome.ok → st'.sent = st1.sent) := by
  intro st'
  unfold attemptPhase
  cases ho : outcome i with
  | err =>
    intro h
    simp only [IterRes.st?, Option.some.injEq] at h
    rw [← h]
    refine ⟨?_, fun hc => Outcome.noConfusion hc, fun _ => rfl⟩
    show st1.sent + (st1.failed + 1) = st1.sent + st1.failed + 1
    omega
  | ok =>
    intro h
    have hc := afterAttempt_counters sig rand len i { st1 with sent := st1.sent + 1 } _ st' h
    refine ⟨?_, fun _ => hc.1, fun hne => absurd rfl hne⟩
    rw [hc.1, hc.2]
    show st1.sent + 1 + st1.failed = st1.sent + st1.failed + 1
    omega
  | blocked =>
    intro h
    have hc := afterAttempt_counters sig rand len i { st1 with failed := st1.failed + 1 } _ st' h
    refine ⟨?_, fun hc2 => Outcome.noConfusion hc2, fun _ => hc.1⟩
    rw [hc.1, hc.2]
    show st1.sent + (st1.failed + 1) = st1.sent + st1.failed + 1
    omega

theorem attemptPhase_stopInv (sig : Nat → Sig) (rand : Nat → Nat) (outcome : Nat → Outcome)
    (len i : Nat) (st1 : RunSt) (tr1 : List TEv) (t : Nat)
    (hsig : sig t = Sig.stop) (hinv : StopInv t st1) (hsend : st1.sending = true)
    (htr : ∀ e ∈ tr1, activeAct e.act = true → e.tick ≤ t) :
    (∀ e ∈ (attemptPhase sig rand outcome len i st1 tr1).tr,
      activeAct e.act = true → e.tick ≤ t) ∧
    (∀ st', (attemptPhase sig rand outcome len i st1 tr1).st? = some st' → StopInv t st') := by
  have htick : st1.tick ≤ t := by
    by_contra hgt
    rw [hinv (by omega)] at hsend
    exact absurd hsend (by simp)
  have hbase : ∀ (o : Outcome) (lg : Action) (st2 : RunSt),
      ∀ e ∈ tr1 ++ [⟨st1.tick, Action.sendingLog i⟩, ⟨st1.tick, Action.attempt i o⟩] ++
        [⟨st1.tick, lg⟩, progEv len st2],
      activeAct e.act = true → e.tick ≤ t := by
    intro o lg st2 e he hact
    rcases List.mem_append.1 he with h1 | h2
    · rcases List.mem_append.1 h1 with h3 | h4
      · exact htr e h3 hact
      · rcases List.mem_cons.1 h4 with rfl | h5
        · exact htick
        · rcases List.mem_cons.1 h5 with rfl | h6
          · exact htick
          · simp at h6
    · rcases List.mem_cons.1 h2 with rfl | h5
      · exact htick
      · rcases List.mem_cons.1 h5 with rfl | h6
        · simp [progEv, activeAct] at hact
        · simp at h6
  unfold attemptPhase
  cases ho : outcome i with
  | err =>
    constructor
    · intro e he hact
      simp only [IterRes.tr] at he
      exact hbase Outcome.err (Action.failedLog i) _ e (by simpa using he) hact
    · intro st' h
      simp only [IterRes.st?, Option.some.injEq] at h
      rw [← h]
      exact hinv
  | ok =>
    exact afterAttempt_stopInv sig rand len i { st1 with sent := st1.sent + 1 } _ t hsig hinv
      (fun e he hact => hbase Outcome.ok (Action.sentLog i) _ e (by simpa using he) hact)
  | blocked =>
    exact afterAttempt_stopInv sig rand len i { st1 with failed := st1.failed + 1 } _ t hsig hinv
      (fun e he hact => hbase Outcome.blocked (Action.failedLog i) _ e (by simpa using he) hact)

/-! ## Lemmas about one loop iteration -/

theorem iterBody_prog (sig : Nat → Sig) (rand : Nat → Nat) (outcome : Nat → Outcome)
    (len pf i : Nat) (st : RunSt) :
    ∀ e ∈ (iterBody sig rand outcome len pf i st).tr,
      ∀ s f pd tot, e.act = Action.progressObs s f pd tot →
        pd = (len : Int) - s - f ∧ tot = len := by
  have hpa := pauseWait_acts sig pf st
  unfold iterBody
  split
  · intro e he s f pd tot hact
    simp only [IterRes.tr, List.mem_singleton] at he
    rw [he] at hact
    simp at hact
  · cases hpw : (pauseWait sig pf st).1 with
    | none =>
      intro e he s f pd tot hact
      simp only [IterRes.tr] at he
      rcases hpa e he with h | h <;> rw [h] at hact <;> simp at hact
    | some st1 =>
      dsimp only
      split
      · intro e he s f pd tot hact
        simp only [IterRes.tr] at he
        rcases hpa e he with h | h <;> rw [h] at hact <;> simp at hact
      · intro e he s f pd tot hact
        obtain ⟨st2, lg, added, hlg, htr, _, _, hadd⟩ :=
          attemptPhase_shape sig rand outcome len i st1 (pauseWait sig pf st).2
        rw [htr] at he
        rcases List.mem_append.1 he with hm | hm
        · rcases List.mem_append.1 hm with hm2 | hm2
          · rcases List.mem_append.1 hm2 with hm3 | hm3
            · rcases hpa e hm3 with h | h <;> rw [h] at hact <;> simp at hact
            · rcases List.mem_cons.1 hm3 with rfl | hm4
              · simp at hact
              · rcases List.mem_cons.1 hm4 with rfl | hm5
                · simp at hact
                · simp at hm5
          · rcases List.mem_cons.1 hm2 with rfl | hm3
            · rcases hlg with h | h <;> rw [h] at hact <;> simp at hact
            · rcases List.mem_cons.1 hm3 with rfl | hm4
              · simp only [progEv] at hact
                injection hact with h1 h2 h3 h4
                subst h1; subst h2; subst h4
                exact ⟨h3.symm, rfl⟩
              · simp at hm4
        · rcases hadd e hm with h | h
          · rw [h] at hact; simp at hact
          · rcases h.1 with h2 | ⟨ms, h2, _⟩ <;> rw [h2] at hact <;> simp at hact

theorem iterBody_cooldown (sig : Nat → Sig) (rand : Nat → Nat) (outcome : Nat → Outcome)
    (len pf i : Nat) (st : RunSt) :
    ∀ e ∈ (iterBody sig rand outcome len pf i st).tr,
      (∀ s, e.act = Action.cooldownLog s → 0 < s ∧ s % 20 = 0) ∧
      (∀ ms, e.act = Action.cooldownWait ms → 30000 ≤ ms ∧ ms ≤ 60000) := by
  have hpa := pauseWait_acts sig pf st
  unfold iterBody
  split
  · intro e he
    simp only [IterRes.tr, List.mem_singleton] at he
    rw [he]
    exact ⟨by intro s h; simp at h, by intro ms h; simp at h⟩
  · cases hpw : (pauseWait sig pf st).1 with
    | none =>
      intro e he
      simp only [IterRes.tr] at he
      rcases hpa e he with h | h <;>
        exact ⟨by intro s hs; rw [h] at hs; simp at hs,
          by intro ms hs; rw [h] at hs; simp at hs⟩
    | some st1 =>
      dsimp only
      split
      · intro e he
        simp only [IterRes.tr] at he
        rcases hpa e he with h | h <;>
          exact ⟨by intro s hs; rw [h] at hs; simp at hs,
            by intro ms hs; rw [h] at hs; simp at hs⟩
      · intro e he
        obtain ⟨st2, lg, added, hlg, htr, _, _, hadd⟩ :=
          attemptPhase_shape sig rand outcome len i st1 (pauseWait sig pf st).2
        rw [htr] at he
        rcases List.mem_append.1 he with hm | hm
        · rcases List.mem_append.1 hm with hm2 | hm2
          · rcases List.mem_append.1 hm2 with hm3 | hm3
            · rcases hpa e hm3 with h | h <;>
                exact ⟨by intro s hs; rw [h] at hs; simp at hs,
                  by intro ms hs; rw [h] at hs; simp at hs⟩
            · rcases List.mem_cons.1 hm3 with rfl | hm4
              · exact ⟨by intro s hs; simp at hs, by intro ms hs; simp at hs⟩
              · rcases List.mem_cons.1 hm4 with rfl | hm5
                · exact ⟨by intro s hs; simp at hs, by intro ms hs; simp at hs⟩
                · simp at hm5
          · rcases List.mem_cons.1 hm2 with rfl | hm3
            · rcases hlg with h | h <;>
                exact ⟨by intro s hs; rw [h] at hs; simp at hs,
                  by intro ms hs; rw [h] at hs; simp at hs⟩
            · rcases List.mem_cons.1 hm3 with rfl | hm4
              · exact ⟨by intro s hs; simp [progEv] at hs, by intro ms hs; simp [progEv] at hs⟩
              · simp at hm4
        · rcases hadd e hm with h | h
          · exact ⟨by intro s hs; rw [h] at hs; simp at hs,
              by intro ms hs; rw [h] at hs; simp at hs⟩
          · rcases h.1 with h2 | ⟨ms, h2, hms1, hms2⟩
            · refine ⟨?_, ?_⟩
              · intro s hs
                rw [h2] at hs
                injection hs with hs
                rw [← hs]
                exact ⟨h.2.1, h.2.2⟩
              · intro ms hs; rw [h2] at hs; simp at hs
            · refine ⟨?_, ?_⟩
              · intro s hs; rw [h2] at hs; simp at hs
              · intro ms' hs
                rw [h2] at hs
                injection hs with hs
                rw [← hs]
                exact ⟨hms1, hms2⟩

theorem attemptsOf_append (a b : List TEv) :
    attemptsOf (a ++ b) = attemptsOf a ++ attemptsOf b :=
  List.filterMap_append a b _

theorem attemptsOf_eq_nil (tr : List TEv)
    (h : ∀ e ∈ tr, ∀ j o, e.act ≠ Action.attempt j o) : attemptsOf tr = [] := by
  unfold attemptsOf
  rw [List.filterMap_eq_nil_iff]
  intro e he
  cases hea : e.act with
  | attempt j o => exact absurd hea (h e he j o)
  | _ => rfl

theorem attemptsOf_attemptPhase (sig : Nat → Sig) (rand : Nat → Nat)
    (outcome : Nat → Outcome) (len i : Nat) (st1 : RunSt) (tr1 : List TEv)
    (h1 : ∀ e ∈ tr1, e.act = Action.pausePoll ∨ e.act = Action.stuckPaused) :
    attemptsOf (attemptPhase sig rand outcome len i st1 tr1).tr = [i] := by
  obtain ⟨st2, lg, added, hlg, htr, _, _, hadd⟩ :=
    attemptPhase_shape sig rand outcome len i st1 tr1
  rw [htr]
  rw [attemptsOf_append, attemptsOf_append, attemptsOf_append]
  rw [attemptsOf_eq_nil tr1 (by
    intro e he j o hea
    rcases h1 e he with h | h <;> rw [h] at hea <;> exact Action.noConfusion hea)]
  rw [attemptsOf_eq_nil added (by
    intro e he j o hea
    rcases hadd e he with h | h
    · rw [h] at hea; exact Action.noConfusion hea
    · rcases h.1 with h2 | ⟨ms, h2, _⟩ <;> rw [h2] at hea <;> exact Action.noConfusion hea)]
  have hlg2 : attemptsOf [⟨st1.tick, lg⟩, progEv len st2] = [] := by
    apply attemptsOf_eq_nil
    intro e he j o hea
    rcases List.mem_cons.1 he with rfl | he2
    · rcases hlg with h | h <;> rw [h] at hea <;> exact Action.noConfusion hea
    · rcases List.mem_cons.1 he2 with rfl | he3
      · simp [progEv] at hea
      · simp at he3
  rw [hlg2]
  simp [attemptsOf]

theorem iterBody_attempts_next (sig : Nat → Sig) (rand : Nat → Nat)
    (outcome : Nat → Outcome) (len pf i : Nat) (st : RunSt) (st' : RunSt) (tr : List TEv)
    (h : iterBody sig rand outcome len pf i st = IterRes.next st' tr) :
    attemptsOf tr = [i] := by
  have hpa := pauseWait_acts sig pf st
  unfold iterBody at h
  split at h
  · exact IterRes.noConfusion h
  · revert h
    cases hpw : (pauseWait sig pf st).1 with
    | none => intro h; exact IterRes.noConfusion h
    | some st1 =>
      dsimp only
      split
      · intro h; exact IterRes.noConfusion h
      · intro h
        have := attemptsOf_attemptPhase sig rand outcome len i st1 (pauseWait sig pf st).2 hpa
        rw [h] at this
        exact this

theorem iterBody_attempts_halt (sig : Nat → Sig) (rand : Nat → Nat)
    (outcome : Nat → Outcome) (len pf i : Nat) (st : RunSt) (res : Option RunSt)
    (tr : List TEv)
    (h : iterBody sig rand outcome len pf i st = IterRes.halt res tr) :
    attemptsOf tr = [] ∨ attemptsOf tr = [i] := by
  have hpa := pauseWait_acts sig pf st
  have hpnil : attemptsOf (pauseWait sig pf st).2 = [] := by
    apply attemptsOf_eq_nil
    intro e he j o hea
    rcases hpa e he with h2 | h2 <;> rw [h2] at hea <;> exact Action.noConfusion hea
  unfold iterBody at h
  split at h
  · injection h with h1 h2
    rw [← h2]
    left
    apply attemptsOf_eq_nil
    intro e he j o hea
    simp only [List.mem_singleton] at he
    rw [he] at hea
    exact Action.noConfusion hea
  · revert h
    cases hpw : (pauseWait sig pf st).1 with
    | none =>
      intro h
      injection h with h1 h2
      rw [← h2]
      exact Or.inl hpnil
    | some st1 =>
      dsimp only
      split
      · intro h
        injection h with h1 h2
        rw [← h2]
        exact Or.inl hpnil
      · intro h
        have := attemptsOf_attemptPhase sig rand outcome len i st1 (pauseWait sig pf st).2 hpa
        rw [h] at this
        exact Or.inr this

theorem iterBody_zeroSuccess (sig : Nat → Sig) (rand : Nat → Nat)
    (outcome : Nat → Outcome) (len pf i : Nat) (st : RunSt) (hsent : st.sent = 0) :
    (∃ e ∈ (iterBody sig rand outcome len pf i st).tr,
      ∃ j, e.act = Action.attempt j Outcome.ok) ∨
    ((∀ e ∈ (iterBody sig rand outcome len pf i st).tr, isCooldownAct e.act = false) ∧
     (∀ st', (iterBody sig rand outcome len pf i st).st? = some st' → st'.sent = 0)) := by
  have hpa := pauseWait_acts sig pf st
  unfold iterBody
  split
  · right
    constructor
    · intro e he
      simp only [IterRes.tr, List.mem_singleton] at he
      rw [he]
      rfl
    · intro st' h
      simp only [IterRes.st?, Option.some.injEq] at h
      rw [← h]
      exact hsent
  · cases hpw : (pauseWait sig pf st).1 with
    | none =>
      right
      constructor
      · intro e he
        simp only [IterRes.tr] at he
        rcases hpa e he with h | h <;> rw [h] <;> rfl
      · intro st' h
        simp only [IterRes.st?] at h
        exact absurd h (by simp)
    | some st1 =>
      dsimp only
      have hs1 : st1.sent = 0 := by
        rw [(pauseWait_counters sig pf st st1 hpw).1]
        exact hsent
      split
      · right
        constructor
        · intro e he
          simp only [IterRes.tr] at he
          rcases hpa e he with h | h <;> rw [h] <;> rfl
        · intro st' h
          simp only [IterRes.st?, Option.some.injEq] at h
          rw [← h]
          exact hs1
      · obtain ⟨st2, lg, added, hlg, htr, hok, hnotok, hadd⟩ :=
          attemptPhase_shape sig rand outcome len i st1 (pauseWait sig pf st).2
        by_cases ho : outcome i = Outcome.ok
        · left
          refine ⟨⟨st1.tick, Action.attempt i (outcome i)⟩, ?_, i, by rw [ho]⟩
          rw [htr]
          simp
        · right
          have hst2 : st2.sent = 0 := by
            rw [hnotok ho]
            exact hs1
          constructor
          · intro e he
            rw [htr] at he
            rcases List.mem_append.1 he with hm | hm
            · rcases List.mem_append.1 hm with hm2 | hm2
              · rcases List.mem_append.1 hm2 with hm3 | hm3
                · rcases hpa e hm3 with h | h <;> rw [h] <;> rfl
                · rcases List.mem_cons.1 hm3 with rfl | hm4
                  · rfl
                  · rcases List.mem_cons.1 hm4 with rfl | hm5
                    · rfl
                    · simp at hm5
              · rcases List.mem_cons.1 hm2 with rfl | hm3
                · rcases hlg with h | h <;> rw [h] <;> rfl
                · rcases List.mem_cons.1 hm3 with rfl | hm4
                  · rfl
                  · simp at hm4
            · rcases hadd e hm with h | h
              · rw [h]; rfl
              · rw [hst2] at h
                exact absurd h.2.1 (by simp)
          · intro st' h
            have hc := attemptPhase_counters sig rand outcome len i st1 _ st' h
            rw [hc.2.2 ho]
            exact hs1

theorem iterBody_stopInv (sig : Nat → Sig) (rand : Nat → Nat)
    (outcome : Nat → Outcome) (len pf i : Nat) (st : RunSt) (t : Nat)
    (hsig : sig t = Sig.stop) (hinv : StopInv t st) :
    (∀ e ∈ (iterBody sig rand outcome len pf i st).tr,
      activeAct e.act = true → e.tick ≤ t) ∧
    (∀ st', (iterBody sig rand outcome len pf i st).st? = some st' → StopInv t st') := by
  have hpw2 := pauseWait_stopInv sig t hsig pf st hinv
  unfold iterBody
  split
  · constructor
    · intro e he hact
      simp only [IterRes.tr, List.mem_singleton] at he
      rw [he] at hact
      simp [activeAct] at hact
    · intro st' h
      simp only [IterRes.st?, Option.some.injEq] at h
      rw [← h]
      exact hinv
  · next hsend =>
    cases hpw : (pauseWait sig pf st).1 with
    | none =>
      constructor
      · intro e he hact
        simp only [IterRes.tr] at he
        exact hpw2.1 e he hact
      · intro st' h
        simp only [IterRes.st?] at h
        exact absurd h (by simp)
    | some st1 =>
      dsimp only
      have hinv1 : StopInv t st1 := hpw2.2 st1 hpw
      split
      · constructor
        · intro e he hact
          simp only [IterRes.tr] at he
          exact hpw2.1 e he hact
        · intro st' h
          simp only [IterRes.st?, Option.some.injEq] at h
          rw [← h]
          exact hinv1
      · next hs1 =>
        have hs1t : st1.sending = true := by
          cases hsb : st1.sending
          · exact absurd hsb hs1
          · rfl
        exact attemptPhase_stopInv sig rand outcome len i st1 (pauseWait sig pf st).2 t
          hsig hinv1 hs1t hpw2.1

/-! ## Lemmas about the whole loop -/

theorem loopRun_zero (sig : Nat → Sig) (rand : Nat → Nat) (outcome : Nat → Outcome)
    (len pf i : Nat) (st : RunSt) :
    loopRun sig rand outcome len pf 0 i st = (some st, []) := rfl

theorem loopRun_stopped (sig : Nat → Sig) (rand : Nat → Nat) (outcome : Nat → Outcome)
    (len pf rem i : Nat) (st : RunSt) (hs : st.sending = false) :
    loopRun sig rand outcome len pf (rem + 1) i st =
      (some st, [⟨st.tick, Action.stopLog⟩]) := by
  have h : iterBody sig rand outcome len pf i st =
      IterRes.halt (some st) [⟨st.tick, Action.stopLog⟩] := by
    unfold iterBody
    rw [if_pos hs]
  unfold loopRun
  rw [h]

theorem loopRun_prog (sig : Nat → Sig) (rand : Nat → Nat) (outcome : Nat → Outcome)
    (len pf : Nat) :
    ∀ (rem i : Nat) (st : RunSt),
      ∀ e ∈ (loopRun sig rand outcome len pf rem i st).2,
        ∀ s f pd tot, e.act = Action.progressObs s f pd tot →
          pd = (len : Int) - s - f ∧ tot = len := by
  intro rem
  induction rem with
  | zero => intro i st e he; simp [loopRun_zero] at he
  | succ rem ih =>
    intro i st e he
    revert he
    unfold loopRun
    cases hib : iterBody sig rand outcome len pf i st with
    | halt res tr =>
      intro he
      have := iterBody_prog sig rand outcome len pf i st e (by rw [hib]; exact he)
      exact this
    | next st' tr =>
      intro he
      rcases List.mem_append.1 he with hm | hm
      · exact iterBody_prog sig rand outcome len pf i st e (by rw [hib]; exact hm)
      · exact ih (i + 1) st' e hm

theorem loopRun_attempts (sig : Nat → Sig) (rand : Nat → Nat) (outcome : Nat → Outcome)
    (len pf : Nat) :
    ∀ (rem i : Nat) (st : RunSt),
      ∃ k, attemptsOf (loopRun sig rand outcome len pf rem i st).2 = List.range' i k := by
  intro rem
  induction rem with
  | zero => intro i st; exact ⟨0, by simp [loopRun_zero, attemptsOf]⟩
  | succ rem ih =>
    intro i st
    unfold loopRun
    cases hib : iterBody sig rand outcome len pf i st with
    | halt res tr =>
      rcases iterBody_attempts_halt sig rand outcome len pf i st res tr hib with h | h
      · exact ⟨0, by simpa using h⟩
      · exact ⟨1, by simpa using h⟩
    | next st' tr =>
      obtain ⟨k, hk⟩ := ih (i + 1) st'
      refine ⟨k + 1, ?_⟩
      show attemptsOf (tr ++ (loopRun sig rand outcome len pf rem (i + 1) st').2) = _
      rw [attemptsOf_append, iterBody_attempts_next sig rand outcome len pf i st st' tr hib,
        hk, List.range'_succ]
      rfl

theorem loopRun_cooldown (sig : Nat → Sig) (rand : Nat → Nat) (outcome : Nat → Outcome)
    (len pf : Nat) :
    ∀ (rem i : Nat) (st : RunSt),
      ∀ e ∈ (loopRun sig rand outcome len pf rem i st).2,
        (∀ s, e.act = Action.cooldownLog s → 0 < s ∧ s % 20 = 0) ∧
        (∀ ms, e.act = Action.cooldownWait ms → 30000 ≤ ms ∧ ms ≤ 60000) := by
  intro rem
  induction rem with
  | zero => intro i st e he; simp [loopRun_zero] at he
  | succ rem ih =>
    intro i st e he
    revert he
    unfold loopRun
    cases hib : iterBody sig rand outcome len pf i st with
    | halt res tr =>
      intro he
      exact iterBody_cooldown sig rand outcome len pf i st e (by rw [hib]; exact he)
    | next st' tr =>
      intro he
      rcases List.mem_append.1 he with hm | hm
      · exact iterBody_cooldown sig rand outcome len pf i st e (by rw [hib]; exact hm)
      · exact ih (i + 1) st' e hm

theorem loopRun_zeroSuccess (sig : Nat → Sig) (rand : Nat → Nat) (outcome : Nat → Outcome)
    (len pf : Nat) :
    ∀ (rem i : Nat) (st : RunSt), st.sent = 0 →
      (∀ e ∈ (loopRun sig rand outcome len pf rem i st).2,
        ∀ j, e.act ≠ Action.attempt j Outcome.ok) →
      ∀ e ∈ (loopRun sig rand outcome len pf rem i st).2, isCooldownAct e.act = false := by
  intro rem
  induction rem with
  | zero => intro i st _ _ e he; simp [loopRun_zero] at he
  | succ rem ih =>
    intro i st hsent hno e he
    revert hno he
    unfold loopRun
    cases hib : iterBody sig rand outcome len pf i st with
    | halt res tr =>
      intro hno he
      rcases iterBody_zeroSuccess sig rand outcome len pf i st hsent with hok | hfacts
      · obtain ⟨e2, he2, j, hj⟩ := hok
        rw [hib] at he2
        exact absurd hj (hno e2 he2 j)
      · exact hfacts.1 e (by rw [hib]; exact he)
    | next st' tr =>
      intro hno he
      rcases iterBody_zeroSuccess sig rand outcome len pf i st hsent with hok | hfacts
      · obtain ⟨e2, he2, j, hj⟩ := hok
        rw [hib] at he2
        simp only [IterRes.tr] at he2
        exact absurd hj (hno e2 (List.mem_append.2 (Or.inl he2)) j)
      · have hst' : st'.sent = 0 := by
          apply hfacts.2
          rw [hib]
          rfl
        rcases List.mem_append.1 he with hm | hm
        · exact hfacts.1 e (by rw [hib]; exact hm)
        · exact ih (i + 1) st' hst'
            (fun e2 he2 j => hno e2 (List.mem_append.2 (Or.inr he2)) j) e hm

theorem loopRun_stopInv (sig : Nat → Sig) (rand : Nat → Nat) (outcome : Nat → Outcome)
    (len pf : Nat) (t : Nat) (hsig : sig t = Sig.stop) :
    ∀ (rem i : Nat) (st : RunSt), StopInv t st →
      ∀ e ∈ (loopRun sig rand outcome len pf rem i st).2,
        activeAct e.act = true → e.tick ≤ t := by
  intro rem
  induction rem with
  | zero => intro i st _ e he; simp [loopRun_zero] at he
  | succ rem ih =>
    intro i st hinv e he
    revert he
    unfold loopRun
    cases hib : iterBody sig rand outcome len pf i st with
    | halt res tr =>
      intro he hact
      exact (iterBody_stopInv sig rand outcome len pf i st t hsig hinv).1 e
        (by rw [hib]; exact he) hact
    | next st' tr =>
      intro he hact
      rcases List.mem_append.1 he with hm | hm
      · exact (iterBody_stopInv sig rand outcome len pf i st t hsig hinv).1 e
          (by rw [hib]; exact hm) hact
      · have hst' : StopInv t st' := by
          apply (iterBody_stopInv sig rand outcome len pf i st t hsig hinv).2
          rw [hib]
          rfl
        exact ih (i + 1) st' hst' e hm hact

/-! ## Lemmas about handleStart -/

theorem finishTrace_acts (len : Nat) (st : RunSt) :
    ∀ e ∈ finishTrace len st,
      e.act = Action.saveReport st.sent st.failed ∨
      e.act = Action.completeLog st.sent st.failed := by
  intro e he
  unfold finishTrace at he
  rcases List.mem_cons.1 he with rfl | he2
  · exact Or.inl rfl
  · split at he2
    · rcases List.mem_cons.1 he2 with rfl | he3
      · exact Or.inr rfl
      · simp at he3
    · simp at he2

theorem handleStart_mem (contacts : List Contact) (messages : List String) (p : Progress)
    (sig : Nat → Sig) (rand : Nat → Nat) (outcome : Nat → Outcome) (pf : Nat) :
    ∀ e ∈ handleStart contacts messages p sig rand outcome pf,
      e.act = Action.startLog contacts.length ∨
      e ∈ (loopRun sig rand outcome contacts.length pf
        (contacts.length - (p.sent + p.failed)) (p.sent + p.failed)
        ⟨true, false, 0, 0, p.sent, p.failed⟩).2 ∨
      (∃ st2, (loopRun sig rand outcome contacts.length pf
          (contacts.length - (p.sent + p.failed)) (p.sent + p.failed)
          ⟨true, false, 0, 0, p.sent, p.failed⟩).1 = some st2 ∧
        (e.act = Action.saveReport st2.sent st2.failed ∨
         e.act = Action.completeLog st2.sent st2.failed)) := by
  intro e he
  unfold handleStart at he
  split at he
  · simp at he
  · rcases List.mem_cons.1 he with rfl | he2
    · exact Or.inl rfl
    · rcases List.mem_append.1 he2 with hm | hm
      · exact Or.inr (Or.inl hm)
      · revert hm
        cases hres : (loopRun sig rand outcome contacts.length pf
            (contacts.length - (p.sent + p.failed)) (p.sent + p.failed)
            ⟨true, false, 0, 0, p.sent, p.failed⟩).1 with
        | none => intro hm; simp at hm
        | some st2 =>
          intro hm
          exact Or.inr (Or.inr ⟨st2, rfl, finishTrace_acts contacts.length st2 e hm⟩)

theorem handleStart_cooldown (contacts : List Contact) (messages : List String)
    (p : Progress) (sig : Nat → Sig) (rand : Nat → Nat) (outcome : Nat → Outcome)
    (pf : Nat) :
    ∀ e ∈ handleStart contacts messages p sig rand outcome pf,
      (∀ s, e.act = Action.cooldownLog s → 0 < s ∧ s % 20 = 0) ∧
      (∀ ms, e.act = Action.cooldownWait ms → 30000 ≤ ms ∧ ms ≤ 60000) := by
  intro e he
  rcases handleStart_mem contacts messages p sig rand outcome pf e he with h | h | ⟨st2, _, h⟩
  · exact ⟨by intro s hs; rw [h] at hs; simp at hs,
      by intro ms hs; rw [h] at hs; simp at hs⟩
  · exact loopRun_cooldown sig rand outcome contacts.length pf _ _ _ e h
  · rcases h with h | h <;>
      exact ⟨by intro s hs; rw [h] at hs; simp at hs,
        by intro ms hs; rw [h] at hs; simp at hs⟩

theorem handleStart_prog (contacts : List Contact) (messages : List String)
    (p : Progress) (sig : Nat → Sig) (rand : Nat → Nat) (outcome : Nat → Outcome)
    (pf : Nat) :
    ∀ e ∈ handleStart contacts messages p sig rand outcome pf,
      ∀ s f pd tot, e.act = Action.progressObs s f pd tot →
        pd = (contacts.length : Int) - s - f ∧ tot = contacts.length := by
  intro e he
  rcases handleStart_mem contacts messages p sig rand outcome pf e he with h | h | ⟨st2, _, h⟩
  · intro s f pd tot hs; rw [h] at hs; simp at hs
  · exact loopRun_prog sig rand outcome contacts.length pf _ _ _ e h
  · rcases h with h | h <;> (intro s f pd tot hs; rw [h] at hs; simp at hs)

theorem handleStart_zeroSuccess (contacts : List Contact) (messages : List String)
    (p : Progress) (sig : Nat → Sig) (rand : Nat → Nat) (outcome : Nat → Outcome)
    (pf : Nat) (hp : p.sent = 0)
    (hno : ∀ e ∈ handleStart contacts messages p sig rand outcome pf,
      ∀ j, e.act ≠ Action.attempt j Outcome.ok) :
    ∀ e ∈ handleStart contacts messages p sig rand outcome pf,
      isCooldownAct e.act = false := by
  by_cases hguard : contacts.length = 0 ∨ messages.length = 0
  · intro e he
    unfold handleStart at he
    rw [if_pos hguard] at he
    simp at he
  · have hsub : ∀ x ∈ (loopRun sig rand outcome contacts.length pf
        (contacts.length - (p.sent + p.failed)) (p.sent + p.failed)
        ⟨true, false, 0, 0, p.sent, p.failed⟩).2,
        x ∈ handleStart contacts messages p sig rand outcome pf := by
      intro x hx
      unfold handleStart
      rw [if_neg hguard]
      exact List.mem_cons_of_mem _ (List.mem_append.2 (Or.inl hx))
    have hloop := loopRun_zeroSuccess sig rand outcome contacts.length pf
      (contacts.length - (p.sent + p.failed)) (p.sent + p.failed)
      ⟨true, false, 0, 0, p.sent, p.failed⟩ hp
      (fun e he j => hno e (hsub e he) j)
    intro e he
    rcases handleStart_mem contacts messages p sig rand outcome pf e he with h | h | ⟨st2, _, h⟩
    · rw [h]; rfl
    · exact hloop e h
    · rcases h with h | h <;> rw [h] <;> rfl

theorem handleStart_attempts (contacts : List Contact) (messages : List String)
    (p : Progress) (sig : Nat → Sig) (rand : Nat → Nat) (outcome : Nat → Outcome)
    (pf : Nat) :
    ∃ k, attemptsOf (handleStart contacts messages p sig rand outcome pf) =
      List.range' (p.sent + p.failed) k := by
  by_cases hguard : contacts.length = 0 ∨ messages.length = 0
  · refine ⟨0, ?_⟩
    unfold handleStart
    rw [if_pos hguard]
    simp [attemptsOf]
  · obtain ⟨k, hk⟩ := loopRun_attempts sig rand outcome contacts.length pf
      (contacts.length - (p.sent + p.failed)) (p.sent + p.failed)
      ⟨true, false, 0, 0, p.sent, p.failed⟩
    refine ⟨k, ?_⟩
    unfold handleStart
    rw [if_neg hguard]
    have hfin : ∀ (res : Option RunSt),
        attemptsOf (match res with
          | some st => finishTrace contacts.length st
          | none => []) = [] := by
      intro res
      cases res with
      | none => simp [attemptsOf]
      | some st2 =>
        apply attemptsOf_eq_nil
        intro e he j o hea
        rcases finishTrace_acts contacts.length st2 e he with h | h <;>
          rw [h] at hea <;> exact Action.noConfusion hea
    show attemptsOf (⟨0, Action.startLog contacts.length⟩ :: _) = _
    unfold attemptsOf
    rw [List.filterMap_cons]
    simp only
    rw [← attemptsOf, attemptsOf_append, hk, hfin]
    simp

theorem handleStart_stopInv (contacts : List Contact) (messages : List String)
    (p : Progress) (sig : Nat → Sig) (rand : Nat → Nat) (outcome : Nat → Outcome)
    (pf : Nat) (t : Nat) (hsig : sig t = Sig.stop) :
    ∀ e ∈ handleStart contacts messages p sig rand outcome pf,
      activeAct e.act = true → e.tick ≤ t := by
  intro e he hact
  rcases handleStart_mem contacts messages p sig rand outcome pf e he with h | h | ⟨st2, _, h⟩
  · rw [h] at hact; simp [activeAct] at hact
  · exact loopRun_stopInv sig rand outcome contacts.length pf t hsig _ _ _
      (fun hlt => absurd hlt (Nat.not_lt_zero t)) e h hact
  · rcases h with h | h <;> rw [h] at hact <;> simp [activeAct] at hact

/-! ## C1: the progress invariant -/

/-- C1: at every observable point — the initial `useState` value and every
`setProgress` emitted during a run, including after failed attempts — the
equation `sent + failed + pending = total` holds, with `total` fixed at the
length of the contact list. -/
theorem progress_invariant :
    (∀ n : Nat, ((initialProgress n).sent : Int) + (initialProgress n).failed +
        (initialProgress n).pending = (initialProgress n).total ∧
      (initialProgress n).total = n) ∧
    (∀ (contacts : List Contact) (messages : List String) (p : Progress)
        (sig : Nat → Sig) (rand : Nat → Nat) (outcome : Nat → Outcome) (pf : Nat),
      ∀ e ∈ handleStart contacts messages p sig rand outcome pf,
        ∀ s f pd tot, e.act = Action.progressObs s f pd tot →
          ((s : Int) + f + pd = tot ∧ tot = contacts.length)) := by
  constructor
  · intro n
    simp [initialProgress]
  · intro contacts messages p sig rand outcome pf e he s f pd tot hact
    obtain ⟨h1, h2⟩ := handleStart_prog contacts messages p sig rand outcome pf e he
      s f pd tot hact
    subst h1; subst h2
    constructor
    · ring
    · rfl

/-- Witness for C1 at a concrete one-contact run whose trace contains the
progress observation `{sent := 1, failed := 0, pending := 0, total := 1}`. -/
theorem progress_invariant_witness :
    ((⟨0, Action.progressObs 1 0 0 1⟩ : TEv) ∈
        handleStart (blankContacts 1) (blankMsgs 1) (initialProgress 1)
          noSig zeroRand allOk 1 ∧
      (⟨0, Action.progressObs 1 0 0 1⟩ : TEv).act = Action.progressObs 1 0 0 1) ∧
    ((1 : Int) + 0 + 0 = 1 ∧ 1 = (blankContacts 1).length) :=
  ⟨⟨by decide, rfl⟩,
    progress_invariant.2 (blankContacts 1) (blankMsgs 1) (initialProgress 1)
      noSig zeroRand allOk 1 ⟨0, Action.progressObs 1 0 0 1⟩ (by decide)
      1 0 0 1 rfl⟩

/-! ## C2: resumability -/

/-- C2: the dispatch loop attempts exactly the consecutive indices starting
at `progress.sent + progress.failed` (never an index below it), and a fresh
start after a stop with `sent = 3, failed = 1, total = 10` attempts index 4
first. -/
theorem resume_from_sent_plus_failed :
    (∀ (contacts : List Contact) (messages : List String) (p : Progress)
        (sig : Nat → Sig) (rand : Nat → Nat) (outcome : Nat → Outcome) (pf : Nat),
      ∃ k, attemptsOf (handleStart contacts messages p sig rand outcome pf) =
        List.range' (p.sent + p.failed) k) ∧
    (attemptsOf (handleStart (blankContacts 10) (blankMsgs 10) ⟨3, 1, 6, 10⟩
        noSig zeroRand allOk 1)).head? = some 4 := by
  constructor
  · intro contacts messages p sig rand outcome pf
    exact handleStart_attempts contacts messages p sig rand outcome pf
  · decide

/-! ## C3: cooldown pacing (corrected) -/

/-- C3 counterexample: with 22 contacts where attempt 20 fails and the others
succeed, the `sent` counter reaches the positive multiple 20 exactly once,
yet the run inserts the extra cooldown delay twice — the check
`getCooldownDelay(sent)` runs after every non-final attempt, so a failure
that leaves `sent` parked at 20 triggers a second cooldown. -/
theorem cooldown_once_per_multiple_counterexample :
    cooldownCount (handleStart (blankContacts 22) (blankMsgs 22) (initialProgress 22)
        noSig zeroRand (fun j => if j = 20 then Outcome.blocked else Outcome.ok) 1) = 2 ∧
    multipleHits 0 (handleStart (blankContacts 22) (blankMsgs 22) (initialProgress 22)
        noSig zeroRand (fun j => if j = 20 then Outcome.blocked else Outcome.ok) 1) = 1 := by
  constructor <;> decide

/-- C3 (amended): every cooldown insertion happens at a point where the
`sent` counter is a positive multiple of 20 (and draws a delay in the 30–60 s
window), so a run that starts with `sent = 0` and has no successful attempt
inserts no cooldown; but the cooldown is re-inserted after every further
non-final attempt that leaves `sent` parked at such a multiple, rather than
exactly once per multiple. -/
theorem cooldown_amended_characterization :
    (∀ (contacts : List Contact) (messages : List String) (p : Progress)
        (sig : Nat → Sig) (rand : Nat → Nat) (outcome : Nat → Outcome) (pf : Nat),
      ∀ e ∈ handleStart contacts messages p sig rand outcome pf,
        (∀ s, e.act = Action.cooldownLog s → 0 < s ∧ s % 20 = 0) ∧
        (∀ ms, e.act = Action.cooldownWait ms → 30000 ≤ ms ∧ ms ≤ 60000)) ∧
    (∀ (contacts : List Contact) (messages : List String) (p : Progress)
        (sig : Nat → Sig) (rand : Nat → Nat) (outcome : Nat → Outcome) (pf : Nat),
      p.sent = 0 →
      (∀ e ∈ handleStart contacts messages p sig rand outcome pf,
        ∀ j, e.act ≠ Action.attempt j Outcome.ok) →
      ∀ e ∈ handleStart contacts messages p sig rand outcome pf,
        isCooldownAct e.act = false) :=
  ⟨handleStart_cooldown, handleStart_zeroSuccess⟩

/-- Witness for the amended C3: in the 22-contact run above the cooldown log
at tick 100 carries `sent = 20`, a positive multiple of 20. -/
theorem cooldown_amended_characterization_witness :
    ((⟨100, Action.cooldownLog 20⟩ : TEv) ∈
        handleStart (blankContacts 22) (blankMsgs 22) (initialProgress 22)
          noSig zeroRand (fun j => if j = 20 then Outcome.blocked else Outcome.ok) 1) ∧
    (0 < 20 ∧ 20 % 20 = 0) :=
  ⟨by decide,
    (cooldown_amended_characterization.1 (blankContacts 22) (blankMsgs 22)
        (initialProgress 22) noSig zeroRand
        (fun j => if j = 20 then Outcome.blocked else Outcome.ok) 1
        ⟨100, Action.cooldownLog 20⟩ (by decide)).1 20 rfl⟩

/-! ## C4: signal latency at suspension points (corrected) -/

/-- C4 counterexample: 21 contacts, all successful, stop clicked while the
cooldown delay (tick 100) is pending.  The trace contains the full
`cooldownWait 30000` — a single 30 s suspension with no polling, far longer
than one polling interval — and the stop is only observed afterwards (the
`stopLog` entry).  So a stop during the cooldown wait does not end it within
one polling interval, contrary to the claim. -/
theorem cooldown_wait_blocks_stop_counterexample :
    (⟨100, Action.cooldownWait 30000⟩ : TEv) ∈
      handleStart (blankContacts 21) (blankMsgs 21) (initialProgress 21)
        (fun x => if x = 100 then Sig.stop else Sig.none) zeroRand allOk 1 ∧
    waitDur (Action.cooldownWait 30000) = some 30000 ∧
    1000 < 30000 ∧
    Action.stopLog ∈ (handleStart (blankContacts 21) (blankMsgs 21) (initialProgress 21)
        (fun x => if x = 100 then Sig.stop else Sig.none) zeroRand allOk 1).map TEv.act := by
  refine ⟨by decide, rfl, by norm_num, by decide⟩

/-- C4 (amended): the inter-message wait and the pause loop poll in steps of
1000 ms and 500 ms respectively, so stop is observed within one such step
there; but the cooldown is one single uninterruptible 30–60 s delay — the
only suspensions in any trace are those three kinds — and a stop pending at
a loop check ends the run at once with only the stop log emitted. -/
theorem stop_latency_amended :
    (∀ (contacts : List Contact) (messages : List String) (p : Progress)
        (sig : Nat → Sig) (rand : Nat → Nat) (outcome : Nat → Outcome) (pf : Nat),
      ∀ e ∈ handleStart contacts messages p sig rand outcome pf,
        ∀ d, waitDur e.act = some d →
          d = 1000 ∨ d = 500 ∨ (30000 ≤ d ∧ d ≤ 60000)) ∧
    (∀ (sig : Nat → Sig) (rand : Nat → Nat) (outcome : Nat → Outcome)
        (len pf rem i : Nat) (st : RunSt), st.sending = false →
      loopRun sig rand outcome len pf (rem + 1) i st =
        (some st, [⟨st.tick, Action.stopLog⟩])) := by
  constructor
  · intro contacts messages p sig rand outcome pf e he d hd
    cases hact : e.act <;> rw [hact] at hd <;> simp [waitDur] at hd
    · exact Or.inl hd.symm
    · exact Or.inr (Or.inl hd.symm)
    · next ms =>
      rw [← hd]
      exact Or.inr (Or.inr
        ((handleStart_cooldown contacts messages p sig rand outcome pf e he).2 ms hact))
  · intro sig rand outcome len pf rem i st hs
    exact loopRun_stopped sig rand outcome len pf rem i st hs

/-- Witness for the amended C4: a loop check with the stop flag already
cleared produces only the stop log and halts. -/
theorem stop_latency_amended_witness :
    ((⟨false, false, 7, 0, 2, 1⟩ : RunSt).sending = false) ∧
    loopRun noSig zeroRand allOk 5 1 (3 + 1) 0 ⟨false, false, 7, 0, 2, 1⟩ =
      (some ⟨false, false, 7, 0, 2, 1⟩, [⟨7, Action.stopLog⟩]) :=
  ⟨rfl, stop_latency_amended.2 noSig zeroRand allOk 5 1 3 0 ⟨false, false, 7, 0, 2, 1⟩ rfl⟩

/-! ## C5: stop during the inter-message wait -/

/-- C5: when a stop request is delivered during an inter-message wait poll
(the `t`-th suspension is a 1 s countdown step), no transport call and no
further wait occurs after that point of the run: every attempt and every
suspension in the trace is stamped with a tick at most `t`. -/
theorem stop_during_message_wait_blocks_attempts
    (contacts : List Contact) (messages : List String) (p : Progress)
    (sig : Nat → Sig) (rand : Nat → Nat) (outcome : Nat → Outcome) (pf : Nat) (t : Nat)
    (hsig : sig t = Sig.stop)
    (_hwait : ∃ e ∈ handleStart contacts messages p sig rand outcome pf,
      e.act = Action.waitMsg ∧ e.tick = t) :
    ∀ e ∈ handleStart contacts messages p sig rand outcome pf,
      activeAct e.act = true → e.tick ≤ t := by
  intro e he hact
  exact handleStart_stopInv contacts messages p sig rand outcome pf t hsig e he hact

/-- Witness for C5: two contacts, stop clicked during the first countdown
poll (tick 0): the transport call for contact 0 (tick 0) is the only attempt
and respects the bound. -/
theorem stop_during_message_wait_blocks_attempts_witness :
    ((fun x => if x = 0 then Sig.stop else Sig.none) 0 = Sig.stop) ∧
    ((⟨0, Action.waitMsg⟩ : TEv) ∈ handleStart (blankContacts 2) (blankMsgs 2)
        (initialProgress 2) (fun x => if x = 0 then Sig.stop else Sig.none) zeroRand allOk 1) ∧
    activeAct (Action.attempt 0 Outcome.ok) = true ∧
    (⟨0, Action.attempt 0 Outcome.ok⟩ : TEv).tick ≤ 0 :=
  ⟨rfl, by decide, rfl,
    stop_during_message_wait_blocks_attempts (blankContacts 2) (blankMsgs 2)
      (initialProgress 2) (fun x => if x = 0 then Sig.stop else Sig.none) zeroRand allOk 1 0
      rfl ⟨⟨0, Action.waitMsg⟩, by decide, rfl, rfl⟩
      ⟨0, Action.attempt 0 Outcome.ok⟩ (by decide) rfl⟩

/-! ## C6: restart after completion (corrected) -/

/-- C6 counterexample: re-invoking `handleStart` from a completed state
(`sent + failed = total = 2`) is not a no-op — the start banner is logged and
`finishSending` pushes another report into the persisted collection. -/
theorem completed_restart_not_noop_counterexample :
    (⟨0, Action.saveReport 2 0⟩ : TEv) ∈
      handleStart (blankContacts 2) (blankMsgs 2) ⟨2, 0, 0, 2⟩ noSig zeroRand allOk 1 ∧
    (⟨0, Action.startLog 2⟩ : TEv) ∈
      handleStart (blankContacts 2) (blankMsgs 2) ⟨2, 0, 0, 2⟩ noSig zeroRand allOk 1 := by
  constructor <;> decide

/-- C6 (amended): re-invoking start from a completed state performs no
transport call and emits no progress update, but it is not a no-op: the
trace is exactly the start log entry, one additional persisted report, and
the completion summary log entry.  (The UI separately disables the Start
button at 100 %.) -/
theorem completed_restart_amended (contacts : List Contact) (messages : List String)
    (p : Progress) (sig : Nat → Sig) (rand : Nat → Nat) (outcome : Nat → Outcome)
    (pf : Nat) (hc : contacts.length ≠ 0) (hm : messages.length ≠ 0)
    (hdone : p.sent + p.failed = contacts.length) :
    (handleStart contacts messages p sig rand outcome pf).map TEv.act =
      [Action.startLog contacts.length, Action.saveReport p.sent p.failed,
        Action.completeLog p.sent p.failed] := by
  unfold handleStart
  rw [if_neg (by push_neg; exact ⟨hc, hm⟩)]
  dsimp only
  have hrem : contacts.length - (p.sent + p.failed) = 0 := by omega
  rw [hrem, loopRun_zero]
  simp only [finishTrace]
  rw [if_pos (by simpa using hdone)]
  simp

/-- Witness for the amended C6 at the concrete completed two-contact state. -/
theorem completed_restart_amended_witness :
    ((blankContacts 2).length ≠ 0 ∧ (blankMsgs 2).length ≠ 0 ∧
      2 + 0 = (blankContacts 2).length) ∧
    (handleStart (blankContacts 2) (blankMsgs 2) ⟨2, 0, 0, 2⟩
        noSig zeroRand allOk 1).map TEv.act =
      [Action.startLog (blankContacts 2).length, Action.saveReport 2 0,
        Action.completeLog 2 0] :=
  ⟨⟨by decide, by decide, by decide⟩,
    completed_restart_amended (blankContacts 2) (blankMsgs 2) ⟨2, 0, 0, 2⟩
      noSig zeroRand allOk 1 (by decide) (by decide) (by decide)⟩

end WaBulk
